import Mathlib

/-!
# Shopping Monitor — verification of the URL deduplication and analytics core

This development gives a shallow embedding, in Lean, of the core services of
the Shopping Monitor repository:

* `app/services/url_deduplication.py` — URL canonicalization
  (`normalize_url`, `extract_domain`), the unique-URL registry
  (`get_or_create_unique_url`) and SERP batch deduplication
  (`deduplicate_serp_results`);
* `app/services/scraping_service.py` — ingestion orchestration
  (`process_and_save_serp_results`, `scrape_single_keyword`, `scrape_project`);
* `app/services/analytics_service.py` — the analytics aggregator
  (`get_dashboard_metrics` pieces, `get_share_of_voice`,
  `get_keywords_positions`).

Python strings are modelled as lists of characters (`Str`).  The embedding of
the `urllib.parse` standard-library functions used by `normalize_url`
(`urlparse`, `parse_qs`, `urlencode`, `urlunparse`, `quote_plus`,
`unquote_plus`) works at the byte level: a `%XX` escape decodes to the single
character with code `XX` and a character is percent-encoded from its code
point, so the model is exact for strings whose characters have code points
below 256 (URLs are in practice ASCII); multi-byte UTF-8 recoding of
non-ASCII text is outside its scope.  Python's `str.lower` is modelled on the
ASCII range.  Database sessions are modelled as explicit state records, SQL
queries as list computations, and `datetime` values as integers.
-/

namespace Shopping

/-- A Python string, modelled as its sequence of characters. -/
abbrev Str := List Char

/-- ASCII lower-casing of one character (model of `str.lower` per character). -/
def asciiLower (c : Char) : Char :=
  if 'A' ≤ c ∧ c ≤ 'Z' then Char.ofNat (c.toNat + 32) else c

/-- Model of Python `str.lower()` (ASCII range). -/
def lowerStr (s : Str) : Str := s.map asciiLower

/-- Characters removed by Python `str.strip()` with no argument (ASCII part). -/
def isPySpace (c : Char) : Bool :=
  c = ' ' ∨ c = '\t' ∨ c = '\n' ∨ c = '\r' ∨ c = '\x0b' ∨ c = '\x0c'

/-- Model of Python `str.strip()`. -/
def pyStrip (s : Str) : Str :=
  ((s.dropWhile isPySpace).reverse.dropWhile isPySpace).reverse

/-- Split a string at the first occurrence of `c`; the second component is
`none` when `c` does not occur (model of `str.find` + slicing). -/
def splitFirst (c : Char) : Str → Str × Option Str
  | [] => ([], none)
  | x :: xs =>
    if x = c then ([], some xs)
    else
      let r := splitFirst c xs
      (x :: r.1, r.2)

/-- Model of Python `str.split(sep)` for a one-character separator. -/
def splitOnChar (sep : Char) : Str → List Str
  | [] => [[]]
  | c :: rest =>
    let r := splitOnChar sep rest
    if c = sep then [] :: r
    else (c :: r.headD []) :: r.tail

def isAsciiAlpha (c : Char) : Bool :=
  ('a' ≤ c ∧ c ≤ 'z') ∨ ('A' ≤ c ∧ c ≤ 'Z')

def isAsciiDigit (c : Char) : Bool :=
  '0' ≤ c ∧ c ≤ '9'

/-- `scheme_chars` of `urllib.parse`. -/
def isSchemeChar (c : Char) : Bool :=
  isAsciiAlpha c ∨ isAsciiDigit c ∨ c = '+' ∨ c = '-' ∨ c = '.'

/-- Scheme extraction of `urllib.parse.urlsplit`: the text before the first
`:` is a scheme when it is non-empty, starts with a letter and contains only
scheme characters; the scheme is lower-cased.  Returns `([], s)` otherwise. -/
def splitScheme (s : Str) : Str × Str :=
  match splitFirst ':' s with
  | (pre, some rest) =>
    if pre ≠ [] ∧ isAsciiAlpha (pre.headD ' ') ∧ pre.all isSchemeChar then
      (lowerStr pre, rest)
    else ([], s)
  | (_, none) => ([], s)

/-- Characters that terminate the network-location part in `urlsplit`. -/
def isNetlocEnd (c : Char) : Bool :=
  c = '/' ∨ c = '?' ∨ c = '#'

/-- `_splitparams` of `urllib.parse`: split `;parameters` off the last path
segment (the caller only invokes it when the path contains a `;`). -/
def splitParamsRaw (p : Str) : Str × Str :=
  if p.contains '/' then
    let lastSeg := (p.reverse.takeWhile (· ≠ '/')).reverse
    let front := p.take (p.length - lastSeg.length)
    match splitFirst ';' lastSeg with
    | (pre, some rest) => (front ++ pre, rest)
    | (_, none) => (p, [])
  else
    match splitFirst ';' p with
    | (pre, some rest) => (pre, rest)
    | (_, none) => (p, [])

/-- Split `;parameters` off a path as `urlparse` does. -/
def splitParams (p : Str) : Str × Str :=
  if p.contains ';' then splitParamsRaw p else (p, [])

/-- The six components returned by `urllib.parse.urlparse`. -/
structure UrlParts where
  scheme : Str
  netloc : Str
  path : Str
  params : Str
  query : Str
  fragment : Str
  deriving DecidableEq, Repr

/-- `urlsplit` removes ASCII tab, carriage return and line feed anywhere. -/
def stripUnsafe (s : Str) : Str :=
  s.filter (fun c => ¬ (c = '\t' ∨ c = '\r' ∨ c = '\n'))

/-- Model of `urllib.parse.urlparse`.  `.error ()` models the `ValueError`
raised for a netloc containing an unmatched square bracket. -/
def urlparseE (url : Str) : Except Unit UrlParts :=
  let s := stripUnsafe url
  let sr := splitScheme s
  let scheme := sr.1
  let rest0 := sr.2
  let netloc :=
    if rest0.take 2 = ['/', '/'] then (rest0.drop 2).takeWhile (fun c => ¬ isNetlocEnd c)
    else []
  let rest1 :=
    if rest0.take 2 = ['/', '/'] then (rest0.drop 2).dropWhile (fun c => ¬ isNetlocEnd c)
    else rest0
  if (netloc.contains '[' ∧ ¬ netloc.contains ']') ∨
     (netloc.contains ']' ∧ ¬ netloc.contains '[') then .error ()
  else
    let fr := splitFirst '#' rest1
    let fragment := fr.2.getD []
    let qr := splitFirst '?' fr.1
    let query := qr.2.getD []
    let pp := splitParams qr.1
    .ok ⟨scheme, netloc, pp.1, pp.2, query, fragment⟩

/-- Model of `urllib.parse.urlunparse` (via `urlunsplit`). -/
def urlunparse (scheme netloc path params query fragment : Str) : Str :=
  let u0 := if params ≠ [] then path ++ ';' :: params else path
  let u1 :=
    if netloc ≠ [] ∨ (u0 ≠ [] ∧ u0.take 2 = ['/', '/']) then
      '/' :: '/' :: netloc ++ (if u0 ≠ [] ∧ u0.headD ' ' ≠ '/' then '/' :: u0 else u0)
    else u0
  let u2 := if scheme ≠ [] then scheme ++ ':' :: u1 else u1
  let u3 := if query ≠ [] then u2 ++ '?' :: query else u2
  if fragment ≠ [] then u3 ++ '#' :: fragment else u3

/-- Characters never percent-encoded by `urllib.parse.quote`
(`_ALWAYS_SAFE`: letters, digits, `_.-~`); `urlencode` passes `safe=""`. -/
def isSafeChar (c : Char) : Bool :=
  isAsciiAlpha c ∨ isAsciiDigit c ∨ c = '_' ∨ c = '.' ∨ c = '-' ∨ c = '~'

/-- Upper-case hexadecimal digit, as produced by `quote`. -/
def hexDigitUpper (n : Nat) : Char :=
  if n < 10 then Char.ofNat ('0'.toNat + n) else Char.ofNat ('A'.toNat + (n - 10))

/-- Percent-encoding of one character by `quote_plus` (byte-level model). -/
def quoteChar (c : Char) : Str :=
  if isSafeChar c then [c]
  else if c = ' ' then ['+']
  else ['%', hexDigitUpper (c.toNat % 256 / 16), hexDigitUpper (c.toNat % 16)]

/-- Model of `urllib.parse.quote_plus` with `safe=""`. -/
def quotePlus (s : Str) : Str :=
  (s.map quoteChar).flatten

/-- Hexadecimal value of a character, either case (as `unquote` accepts). -/
def hexVal? (c : Char) : Option Nat :=
  if '0' ≤ c ∧ c ≤ '9' then some (c.toNat - '0'.toNat)
  else if 'a' ≤ c ∧ c ≤ 'f' then some (c.toNat - 'a'.toNat + 10)
  else if 'A' ≤ c ∧ c ≤ 'F' then some (c.toNat - 'A'.toNat + 10)
  else none

/-- Model of `urllib.parse.unquote` (byte level): each valid `%XX` escape
becomes the character with code `XX`; invalid escapes are left untouched. -/
def unquote : Str → Str
  | [] => []
  | '%' :: h1 :: h2 :: rest2 =>
    match hexVal? h1, hexVal? h2 with
    | some a, some b => Char.ofNat (16 * a + b) :: unquote rest2
    | _, _ => '%' :: unquote (h1 :: h2 :: rest2)
  | '%' :: rest => '%' :: unquote rest
  | c :: rest => c :: unquote rest

/-- Model of `urllib.parse.unquote_plus`. -/
def unquotePlus (s : Str) : Str :=
  unquote (s.map (fun c => if c = '+' then ' ' else c))

/-- Model of `urllib.parse.parse_qsl` with its defaults
(`keep_blank_values=False`, separator `&`): empty fields, fields without `=`
and fields with an empty value are dropped. -/
def parseQsl (q : Str) : List (Str × Str) :=
  (splitOnChar '&' q).filterMap (fun piece =>
    if piece = [] then none
    else
      match splitFirst '=' piece with
      | (_, none) => none
      | (name, some value) =>
        if value = [] then none
        else some (unquotePlus name, unquotePlus value))

/-- One step of `parse_qs` dictionary building: append the value to the
existing key, or add a new key at the end (dicts preserve insertion order). -/
def addPair (acc : List (Str × List Str)) (kv : Str × Str) : List (Str × List Str) :=
  if acc.any (fun g => g.1 = kv.1) then
    acc.map (fun g => if g.1 = kv.1 then (g.1, g.2 ++ [kv.2]) else g)
  else acc ++ [(kv.1, [kv.2])]

/-- Model of `urllib.parse.parse_qs`: group the pairs of `parse_qsl` by key,
keys in first-occurrence order. -/
def parse_qs (q : Str) : List (Str × List Str) :=
  (parseQsl q).foldl addPair []

/-- Model of `urllib.parse.urlencode(seq, doseq=True)` on a list of
`(key, values)` pairs. -/
def urlencodeSeq (l : List (Str × List Str)) : Str :=
  List.intercalate ['&']
    (l.flatMap (fun g => g.2.map (fun v => quotePlus g.1 ++ '=' :: quotePlus v)))

/-- Lexicographic (code-point) order on strings, as Python compares `str`. -/
def lexLe : Str → Str → Bool
  | [], _ => true
  | _ :: _, [] => false
  | a :: as, b :: bs => if a < b then true else if b < a then false else lexLe as bs

/-- Insertion step of a stable insertion sort: `pass y x = true` keeps `y`
in front of the element `x` being inserted. -/
def insertBy {α : Type} (pass : α → α → Bool) (x : α) : List α → List α
  | [] => [x]
  | y :: ys => if pass y x then y :: insertBy pass x ys else x :: y :: ys

/-- Insertion sort driven by `pass` (models Python's stable `sorted` and
SQL `ORDER BY` with a deterministic tie order). -/
def sortedBy {α : Type} (pass : α → α → Bool) (l : List α) : List α :=
  l.foldr (insertBy pass) []

/-- Model of Python `sorted` on `dict.items()` (keys are distinct, so the
tuple order reduces to the key order; `sorted` is stable, equal keys stay in
order, so an element being inserted passes over smaller-or-equal keys). -/
def sortPairs (l : List (Str × List Str)) : List (Str × List Str) :=
  sortedBy (fun y x => lexLe y.1 x.1) l

/-- The fixed tracking-parameter set of `URLDeduplicationService.normalize_url`. -/
def trackingParams : List Str :=
  ["utm_source", "utm_medium", "utm_campaign", "utm_term", "utm_content",
   "gclid", "fbclid", "ref", "referrer", "_ga", "mc_eid", "mc_cid",
   "source", "campaign", "medium", "content", "term"].map String.data

/-- The `www.`-stripping of the netloc in `normalize_url` (lines 47–49). -/
def stripWww (netloc : Str) : Str :=
  if netloc.take 4 = ('w' :: 'w' :: 'w' :: ['.']) then netloc.drop 4 else netloc

/-- The path cleaning of `normalize_url` (lines 51–54): strip trailing
slashes, an empty path becomes `/`. -/
def normPath (p : Str) : Str :=
  let path0 := (p.reverse.dropWhile (· = '/')).reverse
  if path0 = [] then ['/'] else path0

/-- The query-parameter cleaning of `normalize_url` (lines 56–69):
parse the query and drop tracking parameters. -/
def cleanedQueryParams (q : Str) : List (Str × List Str) :=
  (parse_qs q).filter (fun g => ¬ trackingParams.any (fun t => t = lowerStr g.1))

/-- The query-string rebuild of `normalize_url` (lines 71–77). -/
def buildQueryString (cleanedParams : List (Str × List Str)) : Str :=
  if cleanedParams ≠ [] then urlencodeSeq (sortPairs cleanedParams) else []

/-- `url.lower().strip()`, the preprocessing of `normalize_url` (line 44). -/
def preprocess (url : Str) : Str :=
  pyStrip (lowerStr url)

/-- `URLDeduplicationService.normalize_url`
(`app/services/url_deduplication.py`, lines 29–97). -/
def normalize_url (url : Str) : Str :=
  if url = [] then []
  else
    let s := preprocess url
    match urlparseE s with
    | .error _ => s
    | .ok parsed =>
      urlunparse (if parsed.scheme = [] then "https".data else parsed.scheme)
        (stripWww parsed.netloc) (normPath parsed.path) []
        (buildQueryString (cleanedQueryParams parsed.query)) []

/-- `URLDeduplicationService.extract_domain`
(`app/services/url_deduplication.py`, lines 112–133). -/
def extract_domain (url : Str) : Str :=
  match urlparseE url with
  | .error _ => []
  | .ok parsed =>
    let domain := lowerStr parsed.netloc
    if domain.take 4 = ('w' :: 'w' :: 'w' :: ['.']) then domain.drop 4 else domain

/-! ## Unique-URL registry and ingestion pipeline

State of the persistence layer is an explicit record; one SQLAlchemy session
mutating loaded rows is modelled by returning an updated state.  Row
identifiers are positive naturals (the source uses UUID strings, which are
always truthy; starting the counter at 1 keeps the model's identifiers
truthy in the Python sense). -/

/-- The `price` sub-dictionary of a raw DataForSEO listing. -/
structure PriceRec where
  current : Option ℚ := none
  currency : Option Str := none
  regular : Option ℚ := none
  discount_percentage : Option ℚ := none
  deriving DecidableEq, Repr

/-- The dynamic `price` field of a listing: a number or a dictionary. -/
inductive PriceField where
  | num (q : ℚ)
  | dict (r : PriceRec)
  deriving DecidableEq, Repr

/-- The `merchant` sub-dictionary of a raw listing. -/
structure MerchantRec where
  name : Option Str := none
  url : Option Str := none
  deriving DecidableEq, Repr

/-- The `rating` sub-dictionary of a raw listing. -/
structure RatingRec where
  rating_value : Option ℚ := none
  reviews_count : Option Int := none
  deriving DecidableEq, Repr

/-- One raw SERP listing as delivered by the provider client
(`serp_data["items"]` entries); an empty `url` models a missing URL. -/
structure SerpItem where
  url : Str := []
  title : Option Str := none
  description : Option Str := none
  price : Option PriceField := none
  currency : Option Str := none
  merchant : Option MerchantRec := none
  rating : Option RatingRec := none
  image_url : Option Str := none
  availability : Option Str := none
  stock_status : Option Str := none
  images : Option (List Str) := none
  deriving DecidableEq, Repr

/-- The `product_data` dictionary built in `deduplicate_serp_results`
(lines 233–243); it always has its keys present, hence is truthy. -/
structure ProductData where
  title : Option Str
  description : Option Str
  price : Option PriceField
  currency : Option Str
  merchant : Option Str
  rating : Option ℚ
  reviews_count : Option Int
  image_url : Option Str
  scraped_at : Int
  deriving DecidableEq, Repr

def buildProductData (item : SerpItem) (now : Int) : ProductData :=
  ⟨item.title, item.description, item.price, item.currency,
   item.merchant.bind (·.name), item.rating.bind (·.rating_value),
   item.rating.bind (·.reviews_count), item.image_url, now⟩

/-- A persisted `UniqueUrl` row. -/
structure UniqueUrlRow where
  id : Nat
  url : Str
  domain : Str
  product_data : Option ProductData
  scraping_status : Str
  last_scraped : Option Int
  deriving DecidableEq, Repr

/-- The registry's persistence state. -/
structure RegState where
  rows : List UniqueUrlRow
  nextId : Nat
  deriving DecidableEq, Repr

def emptyReg : RegState := ⟨[], 1⟩

/-- The exception surfaced by the service layer. -/
inductive DbError where
  | databaseError
  deriving DecidableEq, Repr

/-- `URLDeduplicationService.get_or_create_unique_url`
(`app/services/url_deduplication.py`, lines 135–193).

`flushConflict = true` models the failure mode in which `session.flush()`
raises a uniqueness violation because a concurrent ingestion inserted the
same canonical URL between this session's `SELECT` and its `INSERT`.  The
source has no handler specific to that integrity error: the whole `try`
body is wrapped by `except Exception`, which re-raises as `DatabaseError`
(lines 184–193). -/
def get_or_create_unique_url (st : RegState) (url : Str) (product_data : Option ProductData)
    (now : Int) (flushConflict : Bool) : Except DbError (UniqueUrlRow × RegState) :=
  let normalized_url := normalize_url url
  let domain := extract_domain url
  match st.rows.find? (fun r => r.url == normalized_url) with
  | some row =>
    if product_data.isSome ∧ row.product_data = none then
      let row1 := { row with
        product_data := product_data
        scraping_status := "completed".data
        last_scraped := some now }
      .ok (row1, { st with rows := st.rows.map (fun r => if r.id = row.id then row1 else r) })
    else .ok (row, st)
  | none =>
    if flushConflict then .error .databaseError
    else
      let row : UniqueUrlRow :=
        ⟨st.nextId, normalized_url, domain, product_data,
         if product_data.isSome then "completed".data else "pending".data,
         if product_data.isSome then some now else none⟩
      .ok (row, ⟨st.rows ++ [row], st.nextId + 1⟩)

/-- One output entry of `deduplicate_serp_results`: the raw listing
annotated with `unique_url_id` (and `normalized_url` on first sighting). -/
structure DedupItem where
  item : SerpItem
  unique_url_id : Nat
  normalized_url : Option Str
  deriving DecidableEq, Repr

/-- `URLDeduplicationService.deduplicate_serp_results`
(`app/services/url_deduplication.py`, lines 195–268): listings without a URL
are skipped, first-time canonical URLs go through the registry, and repeated
canonical URLs within the batch reuse the identifier resolved earlier in the
same batch.  Repeated listings are kept in the output. -/
def deduplicate_serp_results (st : RegState) (serp_results : List SerpItem) (now : Int) :
    Except DbError (List DedupItem × RegState) :=
  go serp_results st [] []
where
  go : List SerpItem → RegState → List (Str × Nat) → List DedupItem →
      Except DbError (List DedupItem × RegState)
  | [], st, _, acc => .ok (acc, st)
  | item :: rest, st, seen, acc =>
    if item.url = [] then go rest st seen acc
    else
      let nu := normalize_url item.url
      match seen.find? (fun p => p.1 == nu) with
      | some p => go rest st seen (acc ++ [⟨item, p.2, none⟩])
      | none =>
        match get_or_create_unique_url st item.url (some (buildProductData item now)) now false with
        | .error e => .error e
        | .ok (row, st1) =>
          go rest st1 (seen ++ [(nu, row.id)]) (acc ++ [⟨item, row.id, some nu⟩])

/-- The normalized product fields returned by
`ScrapingService.extract_product_data`
(`app/services/scraping_service.py`, lines 282–343). -/
structure ProductOut where
  title : Option Str := none
  description : Option Str := none
  price : Option ℚ := none
  currency : Option Str := none
  price_original : Option ℚ := none
  discount_percentage : Option ℚ := none
  availability : Option Str := none
  stock_status : Option Str := none
  merchant_name : Option Str := none
  merchant_url : Option Str := none
  rating : Option ℚ := none
  reviews_count : Option Int := none
  image_url : Option Str := none
  additional_images : Option (List Str) := none
  deriving DecidableEq, Repr

/-- `ScrapingService.extract_product_data`. -/
def extract_product_data (serp_item : SerpItem) : ProductOut :=
  let priceData := serp_item.price
  let price := match priceData with
    | some (.dict r) => r.current
    | some (.num q) => some q
    | none => none
  let currency := match priceData with
    | some (.dict r) => r.currency
    | _ => none
  let price_original := match priceData with
    | some (.dict r) => r.regular
    | _ => none
  let discount_percentage := match priceData with
    | some (.dict r) => r.discount_percentage
    | _ => none
  { title := serp_item.title
    description := serp_item.description
    price := price
    currency := currency
    price_original := price_original
    discount_percentage := discount_percentage
    availability := serp_item.availability
    stock_status := serp_item.stock_status
    merchant_name := serp_item.merchant.bind (·.name)
    merchant_url := serp_item.merchant.bind (·.url)
    rating := serp_item.rating.bind (·.rating_value)
    reviews_count := serp_item.rating.bind (·.reviews_count)
    image_url := serp_item.image_url
    additional_images := serp_item.images }

/-- `ScrapingService.extract_domain_from_url`
(`app/services/scraping_service.py`, lines 353–375); its body is the same
netloc-lower-and-strip-`www.` logic as `extract_domain`. -/
def extract_domain_from_url (url : Str) : Str :=
  match urlparseE url with
  | .error _ => []
  | .ok parsed =>
    let domain := lowerStr parsed.netloc
    if domain.take 4 = ('w' :: 'w' :: 'w' :: ['.']) then domain.drop 4 else domain

/-- A keyword row. -/
structure KeywordRec where
  id : Nat
  project_id : Nat
  keyword : Str
  location : Str := []
  language : Str := []
  search_volume : Option Int := none
  is_active : Bool := true
  deriving DecidableEq, Repr

/-- A persisted `SerpResult` row (the ranking-result fact). -/
structure SerpResultRow where
  id : Nat := 0
  project_id : Nat := 0
  keyword_id : Nat := 0
  competitor_id : Option Nat := none
  scraped_at : Int := 0
  position : Option Int := none
  url : Option Str := none
  domain : Option Str := none
  title : Option Str := none
  description : Option Str := none
  price : Option ℚ := none
  currency : Option Str := none
  merchant_name : Option Str := none
  merchant_url : Option Str := none
  rating : Option ℚ := none
  reviews_count : Option Int := none
  image_url : Option Str := none
  deriving DecidableEq, Repr

/-- `ScrapingService.process_and_save_serp_results`
(`app/services/scraping_service.py`, lines 200–280): one fact per
deduplicated item, `position` from `enumerate(serp_items, 1)` in provider
order; then the SERP↔URL mappings when the id lists have equal length
(`unique_url_id` of value `0` would be falsy and dropped, as `if
item.get("unique_url_id")` does — identifiers here are always ≥ 1). -/
def enumFrom {α : Type} : Nat → List α → List (Nat × α)
  | _, [] => []
  | i, a :: rest => (i, a) :: enumFrom (i + 1) rest

def process_and_save_serp_results (keyword : KeywordRec) (serp_items : List DedupItem)
    (now : Int) (baseId : Nat) : List SerpResultRow × List (Nat × Nat) :=
  let serp_results := (enumFrom 0 serp_items).map (fun (i, d) =>
    let pd := extract_product_data d.item
    { id := baseId + i
      project_id := keyword.project_id
      keyword_id := keyword.id
      competitor_id := none
      scraped_at := now
      position := some ((i : Int) + 1)
      url := some d.item.url
      domain := some (extract_domain_from_url d.item.url)
      title := pd.title
      description := pd.description
      price := pd.price
      currency := pd.currency
      merchant_name := pd.merchant_name
      merchant_url := pd.merchant_url
      rating := pd.rating
      reviews_count := pd.reviews_count
      image_url := pd.image_url : SerpResultRow })
  let mappings :=
    if serp_results ≠ [] then
      let serp_ids := serp_results.map (·.id)
      let unique_url_ids := serp_items.filterMap
        (fun d => if d.unique_url_id ≠ 0 then some d.unique_url_id else none)
      if serp_ids.length = unique_url_ids.length then serp_ids.zip unique_url_ids else []
    else []
  (serp_results, mappings)

/-- Errors reaching `scrape_single_keyword`: an upstream provider failure
(`ExternalAPIError`) or a database failure re-raised by the services. -/
inductive IngestError where
  | api (msg : Str)
  | db
  deriving DecidableEq, Repr

/-- The per-keyword result dictionary assembled by `scrape_project`. -/
structure KeywordScrapeResult where
  keyword_id : Nat
  success : Bool
  results_count : Nat
  error : Option IngestError := none
  deriving DecidableEq, Repr

/-- `ScrapingService.scrape_single_keyword`
(`app/services/scraping_service.py`, lines 107–198), with the provider
client abstracted as `fetch`.  Raises (returns `.error`) on provider failure
or a database error from deduplication. -/
def scrape_single_keyword (keyword : KeywordRec)
    (fetch : KeywordRec → Except IngestError (List SerpItem))
    (st : RegState) (now : Int) (baseId : Nat) :
    Except IngestError (KeywordScrapeResult × List SerpResultRow × RegState) :=
  match fetch keyword with
  | .error e => .error e
  | .ok items =>
    if items = [] then
      .ok (⟨keyword.id, true, 0, none⟩, [], st)
    else
      match deduplicate_serp_results st items now with
      | .error _ => .error .db
      | .ok (dedup, st1) =>
        let pr := process_and_save_serp_results keyword dedup now baseId
        .ok (⟨keyword.id, true, pr.1.length, none⟩, pr.1, st1)

/-- The aggregate outcome of `scrape_project`. -/
structure ProjectScrapeOutcome where
  results : List KeywordScrapeResult
  successful_scrapes : Nat
  failed_scrapes : Nat
  facts : List SerpResultRow
  reg : RegState
  deriving DecidableEq, Repr

/-- The `scrape_with_semaphore` wrapper inside `ScrapingService.scrape_project`
(lines 422–441): any exception from scraping one keyword is caught and
returned as a per-keyword failure dictionary. -/
def scrape_with_semaphore (keyword : KeywordRec)
    (fetch : KeywordRec → Except IngestError (List SerpItem))
    (st : RegState) (now : Int) (baseId : Nat) :
    KeywordScrapeResult × List SerpResultRow × RegState :=
  match scrape_single_keyword keyword fetch st now baseId with
  | .ok r => r
  | .error e => (⟨keyword.id, false, 0, some e⟩, [], st)

/-- `ScrapingService.scrape_project` (`app/services/scraping_service.py`,
lines 377–524), keyword loop and success/failure accounting.
`asyncio.gather` returns results in task order; the bounded-semaphore
concurrency is modelled as sequential execution in keyword order. -/
def scrape_project (keywords : List KeywordRec)
    (fetch : KeywordRec → Except IngestError (List SerpItem))
    (st : RegState) (now : Int) : ProjectScrapeOutcome :=
  let loop := go keywords st 1
  { results := loop.1
    successful_scrapes := loop.1.countP (·.success)
    failed_scrapes := loop.1.countP (fun r => ¬ r.success)
    facts := loop.2.1
    reg := loop.2.2 }
where
  go : List KeywordRec → RegState → Nat →
      List KeywordScrapeResult × List SerpResultRow × RegState
  | [], st, _ => ([], [], st)
  | kw :: rest, st, baseId =>
    let r := scrape_with_semaphore kw fetch st now baseId
    let tail := go rest r.2.2 (baseId + r.2.1.length)
    (r.1 :: tail.1, r.2.1 ++ tail.2.1, tail.2.2)

/-! ## Analytics aggregator

`app/services/analytics_service.py`, over an explicit persisted state.
The unimplemented stub endpoints (`get_position_matrix`, `get_opportunities`)
and the `recent_changes` block of the dashboard are not modelled; SQL
`ORDER BY` ties are resolved by a stable sort on the stored row order. -/

/-- A `Project` row. -/
structure ProjectRow where
  id : Nat
  name : Str := []
  reference_site : Option Str := none
  is_active : Bool := true
  deriving DecidableEq, Repr

/-- A `Competitor` row. -/
structure CompetitorRow where
  id : Nat
  project_id : Nat
  name : Str
  domain : Str
  deriving DecidableEq, Repr

/-- The persisted state read by the analytics service. -/
structure AnalyticsState where
  projects : List ProjectRow
  keywords : List KeywordRec
  competitors : List CompetitorRow
  facts : List SerpResultRow
  deriving DecidableEq, Repr

/-- Substring containment, as SQL `LIKE '%needle%'` tests it. -/
def strHasSub (needle : Str) : Str → Bool
  | [] => decide (needle = [])
  | c :: rest =>
    decide ((c :: rest).take needle.length = needle) || strHasSub needle rest

/-- First-occurrence duplicate removal (Python `set`/`DISTINCT` with
deterministic first-seen order). -/
def dedupFirstAux {α : Type} [DecidableEq α] (seen : List α) : List α → List α
  | [] => []
  | a :: l => if a ∈ seen then dedupFirstAux seen l else a :: dedupFirstAux (seen ++ [a]) l

def dedupFirst {α : Type} [DecidableEq α] (l : List α) : List α :=
  dedupFirstAux [] l

/-- SQL `AVG` over a multiset of values: `NULL` on an empty set. -/
def sqlAvg (l : List ℚ) : Option ℚ :=
  if l = [] then none else some (l.sum / l.length)

/-- The non-`NULL` positions of a list of fact rows (SQL aggregates skip
`NULL`s). -/
def intPositions (l : List SerpResultRow) : List Int :=
  l.filterMap (fun f => f.position)

/-- Cast an integer position into the exact rationals used for averages. -/
def qOfInt (p : Int) : ℚ := (p : ℚ)

/-- Python `x or y` for an optional string (`None` and `""` are falsy). -/
def pyOrStr (a : Option Str) (b : Str) : Str :=
  match a with
  | some s => if s = [] then b else s
  | none => b

/-- Truthiness of an optional integer (`None` and `0` are falsy). -/
def truthyPos : Option Int → Bool
  | some p => p ≠ 0
  | none => false

/-- `ORDER BY key DESC` as a stable sort (larger keys first). -/
def sortDescBy {α : Type} (key : α → Int) (l : List α) : List α :=
  sortedBy (fun y x => key x < key y) l

/-- Python stable ascending sort by an integer key. -/
def sortAscBy {α : Type} (key : α → Int) (l : List α) : List α :=
  sortedBy (fun y x => key y ≤ key x) l

/-- `ORDER BY key DESC` for a nullable key; SQLite treats `NULL` as smallest,
so `NULL`s come last in descending order. -/
def sortDescByOpt {α : Type} (key : α → Option Int) (l : List α) : List α :=
  sortedBy (fun y x =>
    match key x, key y with
    | none, some _ => true
    | none, none => false
    | some _, none => false
    | some a, some b => a < b) l

/-- One entry of the share-of-voice response (`ShareOfVoiceItem`). -/
structure ShareOfVoiceItem where
  competitor_id : Str
  competitor_name : Str
  domain : Str
  appearances : Nat
  total_keywords : Nat := 0
  share_percentage : ℚ
  average_position : ℚ
  price_competitiveness : Option ℚ := none
  deriving DecidableEq, Repr

/-- The share-of-voice response. -/
structure ShareOfVoiceResponse where
  project_id : Nat
  period_start : Int
  period_end : Int
  total_appearances : Nat
  competitors : List ShareOfVoiceItem
  deriving DecidableEq, Repr

/-- `AnalyticsService.get_share_of_voice`
(`app/services/analytics_service.py`, lines 352–436): appearances are
counted over all project facts of the period; domain grouping is over facts
with a non-`NULL` domain, grouped by `(domain, merchant_name)`, ordered by
appearances descending. `none` models the 404 on an unknown project. -/
def get_share_of_voice (st : AnalyticsState) (pid : Nat) (ps pe : Int) :
    Option ShareOfVoiceResponse :=
  match st.projects.find? (fun p => p.id == pid) with
  | none => none
  | some _ =>
    let total_appearances := (st.facts.filter (fun f =>
      decide (f.project_id = pid ∧ ps ≤ f.scraped_at ∧ f.scraped_at ≤ pe))).length
    let rows := st.facts.filter (fun f =>
      decide (f.project_id = pid ∧ ps ≤ f.scraped_at ∧ f.scraped_at ≤ pe ∧ f.domain ≠ none))
    let keys := dedupFirst (rows.map (fun f => (f.domain, f.merchant_name)))
    let grouped := keys.map (fun k =>
      let g := rows.filter (fun f => decide ((f.domain, f.merchant_name) = k))
      (k, g.length, sqlAvg ((intPositions g).map qOfInt)))
    let ordered := sortDescBy (fun t => (t.2.1 : Int)) grouped
    let items := ordered.map (fun t =>
      let domain := t.1.1.getD []
      let avg_position : ℚ := match t.2.2 with
        | some a => if a = 0 then 0 else a
        | none => 0
      let share_percentage : ℚ :=
        if 0 < total_appearances then ((t.2.1 : ℚ) / (max total_appearances 1 : ℚ)) * 100
        else 0
      { competitor_id := domain.map (fun c => if c = '.' then '_' else c)
        competitor_name := pyOrStr t.1.2 domain
        domain := domain
        appearances := t.2.1
        share_percentage := share_percentage
        average_position := avg_position : ShareOfVoiceItem })
    some ⟨pid, ps, pe, total_appearances, items⟩

/-- The seconds in the trailing dashboard window (`timedelta(days=7)`). -/
def sevenDays : Int := 7 * 86400

/-- The `average_position` dashboard query
(`app/services/analytics_service.py`, lines 61–75):
`AVG(position)` over the project's facts with non-`NULL` position scraped in
the trailing seven days — there is no domain condition — followed by the
Python truthiness conversion (`if average_position: … else None`). -/
def dashboard_average_position (st : AnalyticsState) (pid : Nat) (now : Int) : Option ℚ :=
  let rows := st.facts.filter (fun f =>
    decide (f.project_id = pid ∧ f.position ≠ none ∧ now - sevenDays ≤ f.scraped_at))
  match sqlAvg ((intPositions rows).map qOfInt) with
  | none => none
  | some a => if a = 0 then none else some a

/-- The `total_appearances` dashboard query (lines 78–85). -/
def dashboard_total_appearances (st : AnalyticsState) (pid : Nat) (now : Int) : Nat :=
  (st.facts.filter (fun f =>
    decide (f.project_id = pid ∧ now - sevenDays ≤ f.scraped_at))).length

/-- The visibility-score computation (lines 91–111). -/
def dashboard_visibility_score (st : AnalyticsState) (pid : Nat) (now : Int)
    (total_keywords : Nat) : ℚ :=
  let rows := st.facts.filter (fun f =>
    decide (f.project_id = pid ∧ now - sevenDays ≤ f.scraped_at))
  let appearances := rows.length
  match sqlAvg ((intPositions rows).map qOfInt) with
  | none => 0
  | some avg_pos =>
    if avg_pos ≠ 0 ∧ appearances ≠ 0 then
      if 0 < avg_pos then
        min 100 (max 0 (100 - avg_pos * 5) * ((appearances : ℚ) / (max total_keywords 1 : ℚ)))
      else 0
    else 0

/-- The opportunities count (lines 113–122): positions in `[11, 20]`. -/
def dashboard_total_opportunities (st : AnalyticsState) (pid : Nat) (now : Int) : Nat :=
  (st.facts.filter (fun f =>
    decide (f.project_id = pid ∧
      (∃ p, f.position = some p ∧ 11 ≤ p ∧ p ≤ 20) ∧
      now - sevenDays ≤ f.scraped_at))).length

/-- One entry of the dashboard `top_keywords` list. -/
structure TopKwEntry where
  keyword : Str
  position : Option Int
  volume : Int
  trend : Str
  note : Option Str := none
  deriving DecidableEq, Repr

/-- One entry of the dashboard `top_competitors` list. -/
structure TopCompEntry where
  name : Str
  domain : Str
  share_of_voice : ℚ
  avg_position : Option ℚ
  trend : Str
  deriving DecidableEq, Repr

/-- The real `top_keywords` query and row post-processing (lines 142–179):
join of keywords and facts over the trailing window, filter on non-`NULL`
position and `domain LIKE %reference_site%` (`False` when the project has no
truthy reference site), grouped by `(keyword, search_volume)` with the best
(minimum) position, ordered by search volume descending then best position
ascending, limited to 5. -/
def top_keywords_real (st : AnalyticsState) (pid : Nat) (now : Int)
    (ref : Option Str) : List TopKwEntry :=
  match ref with
  | none => []
  | some r =>
    let joined := st.keywords.flatMap (fun kw =>
      if kw.project_id = pid then
        (st.facts.filter (fun f =>
          decide (f.keyword_id = kw.id ∧ now - sevenDays ≤ f.scraped_at ∧
            f.position ≠ none ∧ (∃ d, f.domain = some d ∧ strHasSub r d = true)))).map
          (fun f => (kw, f))
      else [])
    let keys := dedupFirst (joined.map (fun p => (p.1.keyword, p.1.search_volume)))
    let grouped : List ((Str × Option Int) × Int) := keys.map (fun k =>
      let g := joined.filter (fun p => decide ((p.1.keyword, p.1.search_volume) = k))
      (k, (((g.filterMap (fun p => p.2.position)).min?).getD 0 : Int)))
    let ordered := sortDescByOpt (fun t => t.1.2) (sortAscBy (fun t => t.2) grouped)
    (ordered.take 5).map (fun (t : (Str × Option Int) × Int) =>
      ({ keyword := t.1.1
         position := if t.2 ≠ 0 then some t.2 else none
         volume := (match t.1.2 with
           | some v => if v ≠ 0 then v else 1000
           | none => 1000)
         trend := "stable".data } : TopKwEntry))

/-- The placeholder entry appended when the project has no own-site
position at all (lines 182–189). -/
def noPositionPlaceholder (ref : Option Str) : TopKwEntry :=
  { keyword := "Aucune position trouvée".data
    position := none
    volume := 0
    trend := "stable".data
    note := some ("Aucune position trouvée pour ".data ++ pyOrStr ref "votre site".data ++
      " dans les résultats shopping".data) }

/-- The hard-coded demo keywords (lines 193–197). -/
def demoKeywords : List TopKwEntry :=
  [{ keyword := "smartphone pas cher".data, position := some 8, volume := 12000,
     trend := "up".data },
   { keyword := "iPhone 15 Pro".data, position := some 12, volume := 8500,
     trend := "stable".data },
   { keyword := "casque bluetooth".data, position := some 6, volume := 15000,
     trend := "down".data }]

/-- The `top_keywords` padding logic of `get_dashboard_metrics`
(lines 181–200): a placeholder when empty, then demo keywords up to 3. -/
def buildTopKeywords (ref : Option Str) (real : List TopKwEntry) : List TopKwEntry :=
  let tk := if real = [] then [noPositionPlaceholder ref] else real
  if tk.length < 3 then tk ++ demoKeywords.take (min (3 - tk.length) demoKeywords.length)
  else tk

/-- The real `top_competitors` query and row post-processing (lines 202–237). -/
def top_competitors_real (st : AnalyticsState) (pid : Nat) (now : Int)
    (total_appearances : Nat) : List TopCompEntry :=
  let joined := st.competitors.flatMap (fun c =>
    if c.project_id = pid then
      (st.facts.filter (fun f =>
        decide (f.competitor_id = some c.id ∧ now - sevenDays ≤ f.scraped_at))).map
        (fun f => (c, f))
    else [])
  let keys := dedupFirst (joined.map (fun p => (p.1.name, p.1.domain)))
  let grouped := keys.map (fun k =>
    let g := joined.filter (fun p => decide ((p.1.name, p.1.domain) = k))
    (k, g.length, sqlAvg ((intPositions (g.map (·.2))).map qOfInt)))
  let ordered := sortDescBy (fun t => (t.2.1 : Int)) grouped
  (ordered.take 5).map (fun t =>
    ({ name := t.1.1
       domain := t.1.2
       share_of_voice :=
         if 0 < total_appearances then ((t.2.1 : ℚ) / (max total_appearances 1 : ℚ)) * 100
         else 0
       avg_position := (match t.2.2 with
         | some a => if a = 0 then none else some a
         | none => none)
       trend := "stable".data } : TopCompEntry))

/-- The hard-coded demo competitors (lines 241–245). -/
def demoCompetitors : List TopCompEntry :=
  [{ name := "Amazon".data, domain := "amazon.fr".data, share_of_voice := 245 / 10,
     avg_position := some (32 / 10), trend := "up".data },
   { name := "Fnac".data, domain := "fnac.com".data, share_of_voice := 187 / 10,
     avg_position := some (58 / 10), trend := "stable".data },
   { name := "Cdiscount".data, domain := "cdiscount.com".data, share_of_voice := 153 / 10,
     avg_position := some (71 / 10), trend := "down".data }]

/-- The `top_competitors` padding logic of `get_dashboard_metrics`
(lines 239–246): `top_competitors.extend(demo_competitors[len(top_competitors):])`
whenever fewer than 3 real entries were found. -/
def buildTopCompetitors (real : List TopCompEntry) : List TopCompEntry :=
  if real.length < 3 then real ++ demoCompetitors.drop real.length else real

/-- The dashboard `metrics` record. -/
structure DashboardMetrics where
  total_keywords : Nat
  total_competitors : Nat
  average_position : Option ℚ
  share_of_voice : ℚ
  total_opportunities : Nat
  visibility_score : ℚ
  last_scrape_date : Int
  deriving DecidableEq, Repr

/-- The dashboard response (without the unmodelled `recent_changes`). -/
structure DashboardResponse where
  project_id : Nat
  project_name : Str
  metrics : DashboardMetrics
  top_keywords : List TopKwEntry
  top_competitors : List TopCompEntry
  deriving DecidableEq, Repr

/-- `AnalyticsService.get_dashboard_metrics`
(`app/services/analytics_service.py`, lines 34–346), without the
`recent_changes` block. -/
def get_dashboard_metrics (st : AnalyticsState) (pid : Nat) (now : Int) :
    Option DashboardResponse :=
  match st.projects.find? (fun p => p.id == pid) with
  | none => none
  | some project =>
    let total_keywords := (st.keywords.filter (fun k =>
      decide (k.project_id = pid ∧ k.is_active = true))).length
    let total_competitors := (st.competitors.filter (fun c => c.project_id == pid)).length
    let total_appearances := dashboard_total_appearances st pid now
    let last_scrape_date :=
      (((st.facts.filter (fun f => f.project_id == pid)).map (·.scraped_at)).max?).getD now
    let refT : Option Str := match project.reference_site with
      | some r => if r = [] then none else some r
      | none => none
    let metrics : DashboardMetrics :=
      { total_keywords := total_keywords
        total_competitors := total_competitors
        average_position := dashboard_average_position st pid now
        share_of_voice := 0
        total_opportunities := dashboard_total_opportunities st pid now
        visibility_score := dashboard_visibility_score st pid now total_keywords
        last_scrape_date := last_scrape_date }
    some
      { project_id := pid
        project_name := project.name
        metrics := metrics
        top_keywords := buildTopKeywords refT (top_keywords_real st pid now refT)
        top_competitors :=
          buildTopCompetitors (top_competitors_real st pid now total_appearances) }

/-- The Python trend computation of `get_keywords_positions`
(lines 516–526), including the truthiness of `if current_position and
previous_position:` (a stored position of `0` is falsy). -/
def pyTrend (cur prev : Option Int) : Str :=
  if truthyPos cur ∧ truthyPos prev then
    if cur.getD 0 < prev.getD 0 then "up".data
    else if prev.getD 0 < cur.getD 0 then "down".data
    else "stable".data
  else if truthyPos cur ∧ ¬ truthyPos prev then "new".data
  else if ¬ truthyPos cur ∧ truthyPos prev then "lost".data
  else "stable".data

/-- One entry of the keywords-positions response. -/
structure KwPosEntry where
  keyword_id : Nat
  keyword : Str
  search_volume : Int
  current_position : Option Int
  previous_position : Option Int
  trend : Str
  current_url : Option Str
  total_urls_positioned : Nat
  last_scraped : Option Int
  deriving DecidableEq, Repr

/-- The keywords-positions response. -/
structure KwPosResponse where
  project_id : Nat
  reference_site : Str
  total_keywords : Nat
  positioned_keywords : Nat
  keywords : List KwPosEntry
  deriving DecidableEq, Repr

/-- The two most recent own-domain rows with non-`NULL` position for one
keyword (the `positions_query` of `get_keywords_positions`, lines 484–497). -/
def twoMostRecentOwnRows (st : AnalyticsState) (reference_site : Str)
    (kw : KeywordRec) : List SerpResultRow :=
  (sortDescBy (·.scraped_at) (st.facts.filter (fun f =>
    decide (f.keyword_id = kw.id ∧ f.domain = some reference_site ∧
      f.position ≠ none)))).take 2

/-- The loop body of `get_keywords_positions` (lines 482–538): the entry
built for one keyword. -/
def keywordPosEntry (st : AnalyticsState) (reference_site : Str)
    (kw : KeywordRec) : KwPosEntry :=
  let rows := twoMostRecentOwnRows st reference_site kw
  let current_position := (rows.head?).bind (·.position)
  let current_url := (rows.head?).bind (·.url)
  let last_scraped := (rows.head?).map (·.scraped_at)
  let previous_position := ((rows.drop 1).head?).bind (·.position)
  let total_urls := (dedupFirst ((st.facts.filter (fun f =>
    decide (f.keyword_id = kw.id ∧ f.domain = some reference_site ∧
      f.url ≠ none))).map (·.url))).length
  { keyword_id := kw.id
    keyword := kw.keyword
    search_volume := (kw.search_volume.getD 0)
    current_position := current_position
    previous_position := previous_position
    trend := pyTrend current_position previous_position
    current_url := current_url
    total_urls_positioned := total_urls
    last_scraped := last_scraped }

/-- `AnalyticsService.get_keywords_positions`
(`app/services/analytics_service.py`, lines 461–549).  The reference site
falls back to the literal `"somfy.fr"` when the project's attribute is falsy
(line 473); per keyword the two most recent own-domain rows with non-`NULL`
position give current/previous position; entries are sorted by current
position ascending with unranked (falsy) entries keyed at 999. -/
def get_keywords_positions (st : AnalyticsState) (pid : Nat) : Option KwPosResponse :=
  match st.projects.find? (fun p => p.id == pid) with
  | none => none
  | some project =>
    let reference_site := pyOrStr project.reference_site "somfy.fr".data
    let kws := st.keywords.filter (fun k => k.project_id == pid)
    let entries := kws.map (keywordPosEntry st reference_site)
    let sortedE := sortAscBy (fun e =>
      match e.current_position with
      | some p => if p ≠ 0 then p else 999
      | none => 999) entries
    some
      { project_id := pid
        reference_site := reference_site
        total_keywords := sortedE.length
        positioned_keywords := (sortedE.filter (fun k => truthyPos k.current_position)).length
        keywords := sortedE }

/-! ## General helper lemmas -/

theorem insertBy_perm {α : Type} (pass : α → α → Bool) (x : α) (l : List α) :
    List.Perm (insertBy pass x l) (x :: l) := by
  induction l with
  | nil => simp [insertBy]
  | cons y ys ih =>
    simp only [insertBy]
    split
    · exact ((ih.cons y).trans (List.Perm.swap x y ys))
    · exact List.Perm.refl _

theorem sortedBy_perm {α : Type} (pass : α → α → Bool) (l : List α) :
    List.Perm (sortedBy pass l) l := by
  induction l with
  | nil => simp [sortedBy]
  | cons a as ih =>
    simpa [sortedBy] using (insertBy_perm pass a (sortedBy pass as)).trans (ih.cons a)

theorem mem_sortedBy {α : Type} {pass : α → α → Bool} {l : List α} {a : α} :
    a ∈ sortedBy pass l ↔ a ∈ l :=
  (sortedBy_perm pass l).mem_iff

theorem mem_dedupFirstAux {α : Type} [DecidableEq α] {a : α} :
    ∀ (seen l : List α), a ∈ dedupFirstAux seen l → a ∈ l := by
  intro seen l
  induction l generalizing seen with
  | nil => simp [dedupFirstAux]
  | cons b bs ih =>
    intro h
    simp only [dedupFirstAux] at h
    split at h
    · exact List.mem_cons_of_mem b (ih _ h)
    · rcases List.mem_cons.mp h with h | h
      · exact h ▸ List.mem_cons_self b bs
      · exact List.mem_cons_of_mem b (ih _ h)

theorem mem_of_mem_dedupFirst {α : Type} [DecidableEq α] {a : α} {l : List α}
    (h : a ∈ dedupFirst l) : a ∈ l :=
  mem_dedupFirstAux [] l h

theorem dedupFirstAux_complete {α : Type} [DecidableEq α] {a : α} :
    ∀ (seen l : List α), a ∈ l → a ∉ seen → a ∈ dedupFirstAux seen l := by
  intro seen l
  induction l generalizing seen with
  | nil => simp
  | cons b bs ih =>
    intro hmem hns
    simp only [dedupFirstAux]
    rcases List.mem_cons.mp hmem with rfl | h
    · split
      · next hbs => exact absurd hbs hns
      · exact List.mem_cons_self _ _
    · split
      · exact ih _ h hns
      · by_cases hab : a = b
        · exact hab ▸ List.mem_cons_self _ _
        · refine List.mem_cons_of_mem _ (ih _ h ?_)
          simp only [List.mem_append, List.mem_singleton]
          rintro (h1 | h1)
          · exact hns h1
          · exact hab h1

theorem mem_dedupFirst_of_mem {α : Type} [DecidableEq α] {a : α} {l : List α}
    (h : a ∈ l) : a ∈ dedupFirst l :=
  dedupFirstAux_complete [] l h (by simp)

theorem dedupFirstAux_subset_cons {α : Type} [DecidableEq α] :
    ∀ (seen l : List α) (c : α), c ∈ dedupFirstAux seen l → c ∉ seen := by
  intro seen l
  induction l generalizing seen with
  | nil => simp [dedupFirstAux]
  | cons b bs ih =>
    intro c h
    simp only [dedupFirstAux] at h
    split at h
    · exact ih _ _ h
    · rcases List.mem_cons.mp h with rfl | h
      · assumption
      · intro hc
        exact ih _ _ h (by simp [hc])

theorem dedupFirstAux_nodup {α : Type} [DecidableEq α] :
    ∀ (seen l : List α), (dedupFirstAux seen l).Nodup := by
  intro seen l
  induction l generalizing seen with
  | nil => simp [dedupFirstAux]
  | cons b bs ih =>
    simp only [dedupFirstAux]
    split
    · exact ih _
    · refine List.Nodup.cons ?_ (ih _)
      intro hb
      exact dedupFirstAux_subset_cons _ _ _ hb (by simp)

theorem dedupFirst_nodup {α : Type} [DecidableEq α] (l : List α) :
    (dedupFirst l).Nodup :=
  dedupFirstAux_nodup [] l

theorem length_filter_add_length_filter_not {α : Type} (p : α → Bool) (l : List α) :
    (l.filter p).length + (l.filter (fun x => ¬ p x)).length = l.length := by
  induction l with
  | nil => simp
  | cons a as ih =>
    by_cases h : p a <;> simp [List.filter_cons, h, ← ih] <;> omega

/-- Partition counting: with a duplicate-free, complete list of keys, the
per-key filter lengths sum to the full length. -/
theorem sum_partition_lengths {α κ : Type} [DecidableEq κ] (key : α → κ) :
    ∀ (ks : List κ) (l : List α), ks.Nodup → (∀ x ∈ l, key x ∈ ks) →
      (ks.map (fun k => (l.filter (fun x => decide (key x = k))).length)).sum = l.length := by
  intro ks
  induction ks with
  | nil =>
    intro l _ hall
    have : l = [] := by
      cases l with
      | nil => rfl
      | cons a t => exact absurd (hall a (List.mem_cons_self a t)) (List.not_mem_nil _)
    simp [this]
  | cons k ks ih =>
    intro l hnd hall
    have hknotin : k ∉ ks := (List.nodup_cons.mp hnd).1
    have hndks : ks.Nodup := (List.nodup_cons.mp hnd).2
    have hsplit := length_filter_add_length_filter_not (fun x => decide (key x = k)) l
    set l' := l.filter (fun x => ¬ decide (key x = k)) with hl'
    have hall' : ∀ x ∈ l', key x ∈ ks := by
      intro x hx
      have hx1 := List.mem_filter.mp hx
      have : key x ∈ k :: ks := hall x hx1.1
      rcases List.mem_cons.mp this with h | h
      · exfalso; revert hx1; simp [h]
      · exact h
    have hcongr : ∀ k' ∈ ks,
        (l.filter (fun x => decide (key x = k'))).length =
        (l'.filter (fun x => decide (key x = k'))).length := by
      intro k' hk'
      have hkk' : k ≠ k' := fun h => hknotin (h ▸ hk')
      rw [hl', List.filter_filter]
      congr 1
      apply List.filter_congr
      intro x _
      by_cases h : key x = k'
      · simp [h, hkk'.symm]
      · simp [h]
    calc ((k :: ks).map (fun k => (l.filter (fun x => decide (key x = k))).length)).sum
        = (l.filter (fun x => decide (key x = k))).length +
          (ks.map (fun k' => (l.filter (fun x => decide (key x = k'))).length)).sum := by
          simp
      _ = (l.filter (fun x => decide (key x = k))).length +
          (ks.map (fun k' => (l'.filter (fun x => decide (key x = k'))).length)).sum := by
          congr 1
          exact congrArg List.sum (List.map_congr_left hcongr)
      _ = (l.filter (fun x => decide (key x = k))).length + l'.length := by
          rw [ih l' hndks hall']
      _ = l.length := hsplit

/-! ## Claim C1 — conflict on insert is surfaced, not merged -/

/-- **C1** (code bug): the spec requires `get_or_create` to catch a
uniqueness violation raised on insert and convert it into a re-read and
idempotent merge.  The source has no such handler: whenever the session's
`SELECT` finds no row and the insert's `flush` raises the conflict, the
generic `except Exception` of `get_or_create_unique_url` re-raises a
`DatabaseError` to the caller — the conflict is surfaced as an error and no
re-read happens. -/
theorem c1_unique_conflict_surfaced (st : RegState) (url : Str)
    (pd : Option ProductData) (now : Int)
    (hmiss : st.rows.find? (fun r => r.url == normalize_url url) = none) :
    get_or_create_unique_url st url pd now true = .error .databaseError := by
  simp [get_or_create_unique_url, hmiss]

theorem c1_unique_conflict_surfaced_witness :
    (emptyReg.rows.find?
        (fun r => r.url == normalize_url "https://example.fr/produit?id=1".data) = none) ∧
    get_or_create_unique_url emptyReg "https://example.fr/produit?id=1".data none 100 true =
      .error .databaseError :=
  ⟨by decide,
   c1_unique_conflict_surfaced emptyReg "https://example.fr/produit?id=1".data none 100
     (by decide)⟩

/-! ## Claim C2 — the three spec variants do not all collapse -/

/-- **C2** (counterexample): `normalize_url` keeps an explicit `http` scheme
(`parsed.scheme or 'https'` only substitutes `https` when the scheme is
absent), so the `http://` variant of the spec's trio canonicalizes to a
different string than the two `https` variants. -/
theorem c2_three_variants_counterexample :
    normalize_url "http://example.com/product/?id=123&ref=test".data ≠
      normalize_url "https://www.example.com/product?utm_source=google&id=123".data := by
  decide

/-- **C2** (amended): the two `https` variants collapse to
`https://example.com/product?id=123`; the `http://` variant canonicalizes to
the same host, path and cleaned query but keeps its `http` scheme, because
the scheme defaults to `https` only when the input has none. -/
theorem c2_scheme_preserved_variants :
    normalize_url "https://www.example.com/product?utm_source=google&id=123".data =
      "https://example.com/product?id=123".data ∧
    normalize_url "https://example.com/product?id=123".data =
      "https://example.com/product?id=123".data ∧
    normalize_url "http://example.com/product/?id=123&ref=test".data =
      "http://example.com/product?id=123".data := by
  refine ⟨by decide, by decide, by decide⟩

/-! ## Claim C10 — dashboard lists are padded with hard-coded demo data -/

/-- **C10**: whenever the dashboard queries return fewer than 3 real
top-keyword or top-competitor entries, `get_dashboard_metrics` pads the
returned list with entries of the fixed demo lists (`demo_keywords`, whose
first entry is the keyword `smartphone pas cher`, and `demo_competitors`,
headed by `Amazon`/`amazon.fr`), so each list always has at least 3 items. -/
theorem c10_dashboard_demo_padding (ref : Option Str) (realKw : List TopKwEntry)
    (realComp : List TopCompEntry) :
    3 ≤ (buildTopKeywords ref realKw).length ∧
    3 ≤ (buildTopCompetitors realComp).length ∧
    (realKw.length < 3 → ∃ n, 0 < n ∧
      buildTopKeywords ref realKw =
        (if realKw = [] then [noPositionPlaceholder ref] else realKw) ++
          demoKeywords.take n) ∧
    (realComp.length < 3 →
      buildTopCompetitors realComp = realComp ++ demoCompetitors.drop realComp.length) := by
  have hdk : demoKeywords.length = 3 := by decide
  have hdc : demoCompetitors.length = 3 := by decide
  refine ⟨?_, ?_, ?_, ?_⟩
  · unfold buildTopKeywords
    by_cases hre : realKw = [] <;>
      · simp only [hre, if_true, if_false, reduceIte]
        split <;> simp_all [List.length_take] <;> omega
  · unfold buildTopCompetitors
    split
    · simp only [List.length_append, List.length_drop, hdc]; omega
    · omega
  · intro hlt
    unfold buildTopKeywords
    by_cases hre : realKw = []
    · refine ⟨2, by omega, ?_⟩
      simp [hre]
    · refine ⟨3 - realKw.length, by omega, ?_⟩
      have h1 : ¬ (if realKw = [] then [noPositionPlaceholder ref] else realKw) = [] := by
        simp [hre]
      simp only [hre, if_false, reduceIte]
      have hlen : realKw.length ≠ 0 := by
        simpa [List.length_eq_zero] using hre
      split
      · rw [hdk]
        congr 1
        congr 1
        omega
      · omega
  · intro hlt
    unfold buildTopCompetitors
    simp [hlt]

theorem c10_dashboard_demo_padding_witness :
    3 ≤ (buildTopKeywords none []).length ∧
    buildTopCompetitors [] = [] ++ demoCompetitors.drop (0 : Nat) := by
  have h := c10_dashboard_demo_padding none [] []
  exact ⟨h.1, by simpa using h.2.2.2 (by decide)⟩

/-! ## Claim C9 — hard-coded `somfy.fr` fallback reference site -/

/-- Overwrite the reference site of one project (used to compare the code's
behaviour on an unset reference site with its behaviour on an explicit one). -/
def setReferenceSite (st : AnalyticsState) (pid : Nat) (r : Option Str) : AnalyticsState :=
  { st with projects := st.projects.map (fun p =>
      if p.id = pid then { p with reference_site := r } else p) }

theorem find?_map_setRef (l : List ProjectRow) (pid : Nat) (r : Option Str) :
    (l.map (fun p => if p.id = pid then { p with reference_site := r } else p)).find?
        (fun p => p.id == pid) =
      (l.find? (fun p => p.id == pid)).map
        (fun p => if p.id = pid then { p with reference_site := r } else p) := by
  induction l with
  | nil => simp
  | cons a as ih =>
    by_cases h : a.id = pid
    · simp [List.find?_cons, h]
    · simp only [List.map_cons, List.find?_cons, h, if_false, reduceIte]
      have hbeq : (a.id == pid) = false := by simpa using h
      simp [hbeq, ih]

/-- **C9**: when the project's reference-site attribute is unset,
`get_keywords_positions` does not treat own-domain observations as missing:
it substitutes the hard-coded literal `"somfy.fr"` (line 473,
`project.reference_site or "somfy.fr"`) and the whole response — every
current/previous position, trend and URL count — is exactly the one computed
for an explicit reference site `"somfy.fr"`. -/
theorem c9_somfy_fallback (st : AnalyticsState) (pid : Nat) (proj : ProjectRow)
    (hfind : st.projects.find? (fun p => p.id == pid) = some proj)
    (hnone : proj.reference_site = none) :
    (get_keywords_positions st pid).map (·.reference_site) = some "somfy.fr".data ∧
    get_keywords_positions st pid =
      get_keywords_positions (setReferenceSite st pid (some "somfy.fr".data)) pid := by
  have hid : proj.id = pid := by simpa using List.find?_some hfind
  constructor
  · simp [get_keywords_positions, hfind, hnone, pyOrStr]
  · simp only [get_keywords_positions, setReferenceSite, find?_map_setRef, hfind,
      Option.map_some', hid, if_true, reduceIte, hnone, pyOrStr]
    rfl

/-- Concrete fixture for the C9 witness. -/
def c9State : AnalyticsState :=
  { projects := [{ id := 1, name := "p".data, reference_site := none }]
    keywords := [{ id := 10, project_id := 1, keyword := "volet roulant".data }]
    competitors := []
    facts := [{ id := 1, project_id := 1, keyword_id := 10, scraped_at := 5,
                position := some 3, domain := some "somfy.fr".data,
                url := some "https://somfy.fr/x".data }] }

theorem c9_somfy_fallback_witness :
    (get_keywords_positions c9State 1).map (·.reference_site) = some "somfy.fr".data :=
  (c9_somfy_fallback c9State 1 { id := 1, name := "p".data, reference_site := none }
    (by decide) rfl).1

/-! ## Claim C5 — the dashboard average position is not own-domain only -/

/-- The metric as the claim states it (comparator written from the spec's
words): average over the project's facts whose domain matches the project's
reference site, with non-`NULL` position, in the trailing 7-day window. -/
def claim_own_average_position (st : AnalyticsState) (pid : Nat) (now : Int) : Option ℚ :=
  match st.projects.find? (fun p => p.id == pid) with
  | none => none
  | some project =>
    let rows := st.facts.filter (fun f =>
      decide (f.project_id = pid ∧ f.domain = project.reference_site ∧ f.position ≠ none ∧
        now - sevenDays ≤ f.scraped_at))
    sqlAvg ((intPositions rows).map qOfInt)

/-- The amended metric, written from the amended claim's words: average of
the non-`NULL` positions over all of the project's facts in the trailing
7-day window, regardless of domain. -/
def claim_all_domains_average_position (st : AnalyticsState) (pid : Nat) (now : Int) :
    Option ℚ :=
  sqlAvg ((intPositions (st.facts.filter (fun f =>
    decide (f.project_id = pid ∧ now - sevenDays ≤ f.scraped_at)))).map qOfInt)

/-- Replace every fact's domain (the dashboard metric must not see it). -/
def mapFactDomains (g : Option Str → Option Str) (st : AnalyticsState) : AnalyticsState :=
  { st with facts := st.facts.map (fun f => { f with domain := g f.domain }) }

/-- Concrete two-fact state refuting C5: one own-domain fact at position 2
and one foreign-domain fact at position 10, both inside the window. -/
def c5State : AnalyticsState :=
  { projects := [{ id := 1, name := [], reference_site := some "example.fr".data }]
    keywords := []
    competitors := []
    facts :=
      [{ id := 1, project_id := 1, keyword_id := 1, scraped_at := 0, position := some 2,
         domain := some "example.fr".data },
       { id := 2, project_id := 1, keyword_id := 1, scraped_at := 0, position := some 10,
         domain := some "other.fr".data }] }

/-- **C5** (counterexample): the `average_position` query of
`get_dashboard_metrics` has no domain condition, so a foreign-domain fact
changes the metric: on `c5State` the dashboard reports 6 while the
own-domain average the claim describes is 2. -/
theorem c5_average_position_counterexample :
    dashboard_average_position c5State 1 sevenDays = some 6 ∧
    claim_own_average_position c5State 1 sevenDays = some 2 ∧
    (6 : ℚ) ≠ 2 := by
  refine ⟨?_, ?_, by norm_num⟩
  · have h : dashboard_average_position c5State 1 sevenDays =
        (match sqlAvg [(2 : ℚ), 10] with
         | none => none
         | some a => if a = 0 then none else some a) := rfl
    rw [h, sqlAvg, if_neg (by simp)]
    norm_num
  · have h : claim_own_average_position c5State 1 sevenDays = sqlAvg [(2 : ℚ)] := rfl
    rw [h, sqlAvg, if_neg (by simp)]
    norm_num

theorem intPositions_filter_drop_ne_none (pid : Nat) (now : Int) :
    ∀ l : List SerpResultRow,
      intPositions (l.filter (fun f => decide (f.project_id = pid ∧ f.position ≠ none ∧
        now - sevenDays ≤ f.scraped_at))) =
      intPositions (l.filter (fun f => decide (f.project_id = pid ∧
        now - sevenDays ≤ f.scraped_at))) := by
  intro l
  induction l with
  | nil => rfl
  | cons f fs ih =>
    by_cases h1 : f.project_id = pid ∧ f.position ≠ none ∧ now - sevenDays ≤ f.scraped_at
    · obtain ⟨ha, hb, hc⟩ := h1
      obtain ⟨p, hp⟩ := Option.ne_none_iff_exists'.mp hb
      rw [List.filter_cons_of_pos (by simp only [decide_eq_true_eq]; exact ⟨ha, hb, hc⟩),
          List.filter_cons_of_pos (by simp only [decide_eq_true_eq]; exact ⟨ha, hc⟩)]
      unfold intPositions
      rw [List.filterMap_cons, List.filterMap_cons, hp]
      simp only []
      unfold intPositions at ih
      rw [ih]
    · by_cases h2 : f.project_id = pid ∧ now - sevenDays ≤ f.scraped_at
      · have hpn : f.position = none := by
          by_contra hne
          exact h1 ⟨h2.1, hne, h2.2⟩
        rw [List.filter_cons_of_neg (by simp only [decide_eq_true_eq]; exact h1),
            List.filter_cons_of_pos (by simp only [decide_eq_true_eq]; exact h2)]
        unfold intPositions
        rw [List.filterMap_cons, hpn]
        simp only []
        unfold intPositions at ih
        rw [ih]
      · rw [List.filter_cons_of_neg (by simp only [decide_eq_true_eq]; exact h1),
            List.filter_cons_of_neg (by simp only [decide_eq_true_eq]; exact h2)]
        exact ih

theorem length_le_sum_of_one_le : ∀ (v : List ℚ), (∀ x ∈ v, 1 ≤ x) →
    (v.length : ℚ) ≤ v.sum := by
  intro v
  induction v with
  | nil => simp
  | cons x xs ih =>
    intro h
    have hx := h x (List.mem_cons_self _ _)
    have hxs := ih (fun y hy => h y (List.mem_cons_of_mem _ hy))
    simp only [List.length_cons, List.sum_cons, Nat.cast_add, Nat.cast_one]
    linarith

/-- **C5** (amended): `average_position` equals the average of the non-null
positions over all of the project's facts in the window, whatever their
domain — in particular the metric is invariant under rewriting every fact's
domain.  (The hypothesis that stored positions are at least 1 holds for
every fact the ingestion pipeline persists, positions being assigned from
`enumerate(serp_items, 1)`; it rules out the Python truthiness corner in
which an average of exactly 0 would be reported as `None`.) -/
theorem c5_average_position_all_domains (st : AnalyticsState) (pid : Nat) (now : Int)
    (hpos : ∀ f ∈ st.facts, ∀ p, f.position = some p → 1 ≤ p) :
    dashboard_average_position st pid now = claim_all_domains_average_position st pid now ∧
    ∀ g, dashboard_average_position (mapFactDomains g st) pid now =
      dashboard_average_position st pid now := by
  constructor
  · unfold dashboard_average_position claim_all_domains_average_position
    dsimp only
    rw [intPositions_filter_drop_ne_none]
    generalize hv : (intPositions (st.facts.filter (fun f => decide (f.project_id = pid ∧
      now - sevenDays ≤ f.scraped_at)))).map qOfInt = v
    have hone : ∀ x ∈ v, 1 ≤ x := by
      intro x hx
      rw [← hv] at hx
      obtain ⟨p, hp, rfl⟩ := List.mem_map.mp hx
      obtain ⟨f, hf, hfp⟩ := List.mem_filterMap.mp hp
      have h1p := hpos f (List.mem_filter.mp hf).1 p hfp
      unfold qOfInt
      exact_mod_cast h1p
    cases v with
    | nil => rfl
    | cons a as =>
      have hlen : (0 : ℚ) < ((a :: as).length : ℚ) := by
        exact_mod_cast Nat.succ_pos as.length
      have hsum := length_le_sum_of_one_le (a :: as) hone
      have hq0 : (a :: as).sum / ((a :: as).length : ℚ) ≠ 0 :=
        ne_of_gt (div_pos (lt_of_lt_of_le hlen hsum) hlen)
      have h1 : sqlAvg (a :: as) = some ((a :: as).sum / ((a :: as).length : ℚ)) := by
        rw [sqlAvg, if_neg (by simp)]
      rw [h1]
      dsimp only
      rw [if_neg hq0]
  · intro g
    unfold dashboard_average_position mapFactDomains
    simp only []
    congr 1
    have h1 : (st.facts.map (fun f => { f with domain := g f.domain })).filter
        (fun f => decide (f.project_id = pid ∧ f.position ≠ none ∧
          now - sevenDays ≤ f.scraped_at)) =
        (st.facts.filter (fun f => decide (f.project_id = pid ∧ f.position ≠ none ∧
          now - sevenDays ≤ f.scraped_at))).map (fun f => { f with domain := g f.domain }) := by
      rw [List.filter_map]
      rfl
    unfold intPositions
    rw [h1, List.filterMap_map]
    rfl

theorem c5_average_position_all_domains_witness :
    dashboard_average_position c5State 1 sevenDays =
      claim_all_domains_average_position c5State 1 sevenDays :=
  (c5_average_position_all_domains c5State 1 sevenDays (by decide)).1

/-! ## Claim C6 — trend classification of the keyword-positions summary -/

/-- The trend mapping exactly as the claim words it: `up` when the current
position is numerically smaller than the previous, `down` when larger,
`stable` when equal, `new` when a current position exists with no previous,
`lost` when a previous exists with no current (the code's default when
neither exists is `stable`). -/
def claim_trend (cur prev : Option Int) : Str :=
  match cur, prev with
  | some c, some p =>
    if c < p then "up".data else if p < c then "down".data else "stable".data
  | some _, none => "new".data
  | none, some _ => "lost".data
  | none, none => "stable".data

theorem pyTrend_eq_claim_trend (cur prev : Option Int)
    (hc : ∀ c, cur = some c → 1 ≤ c) (hp : ∀ c, prev = some c → 1 ≤ c) :
    pyTrend cur prev = claim_trend cur prev := by
  cases cur with
  | none =>
    cases prev with
    | none => rfl
    | some p =>
      have hp1 := hp p rfl
      have : p ≠ 0 := by omega
      simp [pyTrend, claim_trend, truthyPos, this]
  | some c =>
    have hc1 := hc c rfl
    have hcne : c ≠ 0 := by omega
    cases prev with
    | none => simp [pyTrend, claim_trend, truthyPos, hcne]
    | some p =>
      have hp1 := hp p rfl
      have hpne : p ≠ 0 := by omega
      by_cases hcp : c < p
      · simp [pyTrend, claim_trend, truthyPos, hcne, hpne, hcp]
      · by_cases hpc : p < c
        · simp [pyTrend, claim_trend, truthyPos, hcne, hpne, hcp, hpc]
        · simp [pyTrend, claim_trend, truthyPos, hcne, hpne, hcp, hpc]

theorem mem_twoMostRecentOwnRows_mem_facts {st : AnalyticsState} {ref : Str}
    {kw : KeywordRec} {r : SerpResultRow}
    (hr : r ∈ twoMostRecentOwnRows st ref kw) : r ∈ st.facts := by
  have h1 : r ∈ sortDescBy (·.scraped_at) (st.facts.filter (fun f =>
      decide (f.keyword_id = kw.id ∧ f.domain = some ref ∧ f.position ≠ none))) :=
    List.take_subset 2 _ hr
  have h2 := (mem_sortedBy (l := st.facts.filter _)).mp h1
  exact (List.mem_filter.mp h2).1

/-- **C6**: for every keyword entry of the summary, the reported trend is
exactly the claim's classification of the entry's current and previous
positions (the two most recent own-domain observations).  The hypothesis —
every stored position is at least 1 — holds for all ingested facts
(positions come from `enumerate(serp_items, 1)`); without it a stored
position `0` is falsy in Python and flips the classification. -/
theorem c6_trend_classification (st : AnalyticsState) (pid : Nat) (resp : KwPosResponse)
    (hpos : ∀ f ∈ st.facts, ∀ p, f.position = some p → 1 ≤ p)
    (hresp : get_keywords_positions st pid = some resp) :
    ∀ e ∈ resp.keywords, e.trend = claim_trend e.current_position e.previous_position := by
  intro e he
  cases hfind : st.projects.find? (fun p => p.id == pid) with
  | none => simp [get_keywords_positions, hfind] at hresp
  | some project =>
    simp only [get_keywords_positions, hfind, Option.some.injEq] at hresp
    subst hresp
    have he2 := (mem_sortedBy (l := _)).mp he
    obtain ⟨kw, _, rfl⟩ := List.mem_map.mp he2
    set ref := pyOrStr project.reference_site "somfy.fr".data with href
    set rows := twoMostRecentOwnRows st ref kw with hrows
    have hbound : ∀ r ∈ rows, ∀ p, r.position = some p → 1 ≤ p := by
      intro r hr
      exact hpos r (mem_twoMostRecentOwnRows_mem_facts hr)
    have hcur : ∀ c, (rows.head?).bind (·.position) = some c → 1 ≤ c := by
      intro c hcb
      cases hh : rows.head? with
      | none => rw [hh] at hcb; exact absurd hcb (by simp)
      | some r =>
        rw [hh] at hcb
        exact hbound r (List.mem_of_mem_head? hh) c hcb
    have hprev : ∀ c, ((rows.drop 1).head?).bind (·.position) = some c → 1 ≤ c := by
      intro c hcb
      cases hh : (rows.drop 1).head? with
      | none => rw [hh] at hcb; exact absurd hcb (by simp)
      | some r =>
        rw [hh] at hcb
        have hmem : r ∈ rows := List.drop_subset 1 rows (List.mem_of_mem_head? hh)
        exact hbound r hmem c hcb
    exact pyTrend_eq_claim_trend _ _ hcur hprev

/-- Concrete fixture for the C6 witness: two own-domain observations,
position 5 then 3 (most recent), classified `up`. -/
def c6State : AnalyticsState :=
  { projects := [{ id := 1, name := [], reference_site := some "example.fr".data }]
    keywords := [{ id := 10, project_id := 1, keyword := "k".data }]
    competitors := []
    facts :=
      [{ id := 1, project_id := 1, keyword_id := 10, scraped_at := 1, position := some 5,
         domain := some "example.fr".data, url := some "u".data },
       { id := 2, project_id := 1, keyword_id := 10, scraped_at := 2, position := some 3,
         domain := some "example.fr".data, url := some "u".data }] }

theorem c6_trend_classification_witness :
    (match get_keywords_positions c6State 1 with
     | some r => r.keywords.all
         (fun e => decide (e.trend = claim_trend e.current_position e.previous_position))
     | none => false) = true := by
  cases hr : get_keywords_positions c6State 1 with
  | none => exact absurd hr (by decide)
  | some resp =>
    apply List.all_eq_true.mpr
    intro e he
    simp only [decide_eq_true_eq]
    exact c6_trend_classification c6State 1 resp (by decide) hr e he

/-! ## Claim C8 — one keyword failing does not abort its siblings -/

theorem get_or_create_no_conflict_ok (st : RegState) (url : Str) (pd : Option ProductData)
    (now : Int) : ∃ r, get_or_create_unique_url st url pd now false = .ok r := by
  unfold get_or_create_unique_url
  dsimp only
  split
  · split
    · exact ⟨_, rfl⟩
    · exact ⟨_, rfl⟩
  · exact ⟨_, rfl⟩

theorem dedup_go_ok (now : Int) : ∀ (items : List SerpItem) (st : RegState)
    (seen : List (Str × Nat)) (acc : List DedupItem),
    ∃ r, deduplicate_serp_results.go now items st seen acc = .ok r := by
  intro items
  induction items with
  | nil => exact fun st seen acc => ⟨_, rfl⟩
  | cons item rest ih =>
    intro st seen acc
    unfold deduplicate_serp_results.go
    by_cases hu : item.url = []
    · simpa [hu] using ih st seen acc
    · simp only [hu, if_false, reduceIte]
      cases hs : seen.find? (fun p => p.1 == normalize_url item.url) with
      | some p => simpa using ih st seen (acc ++ [⟨item, p.2, none⟩])
      | none =>
        obtain ⟨r, hr⟩ :=
          get_or_create_no_conflict_ok st item.url (some (buildProductData item now)) now
        obtain ⟨row, st1⟩ := r
        simp only [hr]
        exact ih st1 (seen ++ [(normalize_url item.url, row.id)])
          (acc ++ [⟨item, row.id, some (normalize_url item.url)⟩])

theorem dedup_ok (st : RegState) (items : List SerpItem) (now : Int) :
    ∃ r, deduplicate_serp_results st items now = .ok r :=
  dedup_go_ok now items st [] []

/-- Per-keyword outcome of the `scrape_with_semaphore` wrapper: the entry
always names its keyword, and it succeeds exactly when the provider fetch
does (registry and persistence never fail in the model). -/
theorem scrape_with_semaphore_spec (kw : KeywordRec)
    (fetch : KeywordRec → Except IngestError (List SerpItem))
    (st : RegState) (now : Int) (baseId : Nat) :
    (scrape_with_semaphore kw fetch st now baseId).1.keyword_id = kw.id ∧
    ((scrape_with_semaphore kw fetch st now baseId).1.success = true ↔
      ∃ v, fetch kw = .ok v) := by
  unfold scrape_with_semaphore scrape_single_keyword
  cases hf : fetch kw with
  | error e => simp [hf]
  | ok items =>
    by_cases hi : items = []
    · simp [hi]
    · obtain ⟨⟨dd, st1⟩, hd⟩ := dedup_ok st items now
      simp [hi, hd]

theorem scrape_go_spec (fetch : KeywordRec → Except IngestError (List SerpItem)) (now : Int) :
    ∀ (keywords : List KeywordRec) (st : RegState) (baseId : Nat),
    (scrape_project.go fetch now keywords st baseId).1.length = keywords.length ∧
    (∀ (i : Nat) (r : KeywordScrapeResult),
      (scrape_project.go fetch now keywords st baseId).1[i]? = some r →
      ∀ kw, keywords[i]? = some kw →
        r.keyword_id = kw.id ∧ (r.success = true ↔ ∃ v, fetch kw = .ok v)) := by
  intro keywords
  induction keywords with
  | nil =>
    intro st baseId
    constructor
    · rfl
    · intro i r hr
      simp [scrape_project.go] at hr
  | cons kw rest ih =>
    intro st baseId
    have hsem := scrape_with_semaphore_spec kw fetch st now baseId
    constructor
    · simp only [scrape_project.go, List.length_cons]
      exact congrArg (· + 1)
        (ih (scrape_with_semaphore kw fetch st now baseId).2.2
          (baseId + (scrape_with_semaphore kw fetch st now baseId).2.1.length)).1
    · intro i r hr kw' hkw'
      cases i with
      | zero =>
        simp only [scrape_project.go, List.getElem?_cons_zero, Option.some.injEq] at hr hkw'
        subst hr
        subst hkw'
        exact hsem
      | succ n =>
        simp only [scrape_project.go, List.getElem?_cons_succ] at hr hkw'
        exact (ih (scrape_with_semaphore kw fetch st now baseId).2.2
          (baseId + (scrape_with_semaphore kw fetch st now baseId).2.1.length)).2 n r hr kw' hkw'

/-- **C8**: a project ingestion pass yields exactly one per-keyword result
per keyword, in order; a keyword's entry fails exactly when its own provider
fetch fails (so an upstream error for one keyword never prevents or aborts
the sibling keywords, which still get their own entries), and the pass
completes with per-keyword successes and failures accounting for every
keyword. -/
theorem c8_keyword_failures_isolated (keywords : List KeywordRec)
    (fetch : KeywordRec → Except IngestError (List SerpItem))
    (st : RegState) (now : Int) :
    (scrape_project keywords fetch st now).results.length = keywords.length ∧
    (scrape_project keywords fetch st now).successful_scrapes +
      (scrape_project keywords fetch st now).failed_scrapes = keywords.length ∧
    (∀ (i : Nat) (r : KeywordScrapeResult),
      (scrape_project keywords fetch st now).results[i]? = some r →
      ∀ kw, keywords[i]? = some kw →
        r.keyword_id = kw.id ∧ (r.success = true ↔ ∃ v, fetch kw = .ok v)) := by
  have hgo := scrape_go_spec fetch now keywords st 1
  refine ⟨hgo.1, ?_, hgo.2⟩
  have hres : (scrape_project keywords fetch st now).results =
      (scrape_project.go fetch now keywords st 1).1 := rfl
  have htot : (scrape_project keywords fetch st now).successful_scrapes +
      (scrape_project keywords fetch st now).failed_scrapes =
      (scrape_project.go fetch now keywords st 1).1.length := by
    show ((scrape_project.go fetch now keywords st 1).1.countP
        (fun r : KeywordScrapeResult => r.success)) +
      ((scrape_project.go fetch now keywords st 1).1.countP
        (fun r : KeywordScrapeResult => ¬ r.success)) =
      (scrape_project.go fetch now keywords st 1).1.length
    rw [List.countP_eq_length_filter, List.countP_eq_length_filter]
    exact length_filter_add_length_filter_not (fun r : KeywordScrapeResult => r.success) _
  rw [htot, hgo.1]

/-- Concrete three-keyword fixture for the C8 witness: the middle keyword's
provider call fails, the other two succeed. -/
def c8Keywords : List KeywordRec :=
  [{ id := 1, project_id := 1, keyword := "a".data },
   { id := 2, project_id := 1, keyword := "b".data },
   { id := 3, project_id := 1, keyword := "c".data }]

def c8Fetch (k : KeywordRec) : Except IngestError (List SerpItem) :=
  if k.id = 2 then .error (.api "rate limit".data)
  else .ok [{ url := "https://a.fr/x".data }]

theorem c8_keyword_failures_isolated_witness :
    (scrape_project c8Keywords c8Fetch emptyReg 0).results.length = 3 ∧
    ∀ (r : KeywordScrapeResult),
      (scrape_project c8Keywords c8Fetch emptyReg 0).results[2]? = some r →
      r.success = true := by
  have h := c8_keyword_failures_isolated c8Keywords c8Fetch emptyReg 0
  refine ⟨h.1, ?_⟩
  intro r hr
  have := (h.2.2 2 r hr { id := 3, project_id := 1, keyword := "c".data } (by decide)).2
  rw [this]
  exact ⟨[{ url := "https://a.fr/x".data }], rfl⟩

/-! ## Claim C3 — 2 UniqueUrl rows, 3 facts, positions 1,2,3 -/

/-- **C3**: for a batch of three listings of which the first two share a
canonical URL and the third is distinct, ingestion against an empty registry
creates exactly 2 `UniqueUrl` rows, and `process_and_save_serp_results`
persists exactly 3 facts whose positions are 1, 2, 3 in provider order —
the repeated-URL listing is kept, annotated with the identifier resolved
earlier in the same batch. -/
theorem c3_dedup_creates_two_rows_three_facts (a b c : SerpItem) (kw : KeywordRec)
    (now : Int) (ha : a.url ≠ []) (hb : b.url ≠ []) (hc : c.url ≠ [])
    (hab : normalize_url a.url = normalize_url b.url)
    (hac : normalize_url a.url ≠ normalize_url c.url) :
    ∃ dedup st1,
      deduplicate_serp_results emptyReg [a, b, c] now = .ok (dedup, st1) ∧
      st1.rows.length = 2 ∧
      (process_and_save_serp_results kw dedup now 1).1.length = 3 ∧
      ((process_and_save_serp_results kw dedup now 1).1.map (fun f => f.position)) =
        [some 1, some 2, some 3] := by
  have hba : (normalize_url a.url == normalize_url b.url) = true := beq_iff_eq.mpr hab
  have hca : (normalize_url a.url == normalize_url c.url) = false := by
    simpa using hac
  refine ⟨[⟨a, 1, some (normalize_url a.url)⟩, ⟨b, 1, none⟩,
           ⟨c, 2, some (normalize_url c.url)⟩],
    ⟨[⟨1, normalize_url a.url, extract_domain a.url, some (buildProductData a now),
        "completed".data, some now⟩,
      ⟨2, normalize_url c.url, extract_domain c.url, some (buildProductData c now),
        "completed".data, some now⟩], 3⟩, ?_, rfl, rfl, ?_⟩
  · unfold deduplicate_serp_results
    simp [deduplicate_serp_results.go, ha, hb, hc, get_or_create_unique_url, emptyReg,
      hba, hca]
  · norm_num [process_and_save_serp_results, enumFrom]

def c3ItemA : SerpItem :=
  { url := "https://www.example.fr/produit?utm_source=g&id=1".data, title := some "A".data }

def c3ItemB : SerpItem :=
  { url := "https://example.fr/produit?id=1&ref=x".data, title := some "B".data }

def c3ItemC : SerpItem :=
  { url := "https://other.fr/y".data, title := some "C".data }

theorem c3_dedup_creates_two_rows_three_facts_witness :
    ∃ dedup st1,
      deduplicate_serp_results emptyReg [c3ItemA, c3ItemB, c3ItemC] 0 = .ok (dedup, st1) ∧
      st1.rows.length = 2 ∧
      (process_and_save_serp_results { id := 7, project_id := 1, keyword := "k".data }
        dedup 0 1).1.length = 3 ∧
      ((process_and_save_serp_results { id := 7, project_id := 1, keyword := "k".data }
        dedup 0 1).1.map (fun f => f.position)) = [some 1, some 2, some 3] :=
  c3_dedup_creates_two_rows_three_facts c3ItemA c3ItemB c3ItemC
    { id := 7, project_id := 1, keyword := "k".data } 0
    (by decide) (by decide) (by decide) (by decide) (by decide)

/-! ## Claim C4 — share-of-voice percentages sum to 100 -/

/-- **C4**: for a project and a period containing at least one fact, the
`share_percentage` values of `get_share_of_voice` sum to exactly 100 (the
model computes in exact rationals, so "up to rounding" is exact here).
The hypothesis that every fact carries a non-`NULL` domain holds for every
fact this code ingests (`process_and_save_serp_results` always stores the
string `extract_domain_from_url(url)`); a hypothetical `NULL`-domain fact
would be counted in the denominator but excluded from every group, making
the sum fall short of 100. -/
theorem c4_share_of_voice_sums_to_100 (st : AnalyticsState) (pid : Nat) (ps pe : Int)
    (proj : ProjectRow)
    (hproj : st.projects.find? (fun p => p.id == pid) = some proj)
    (hdom : ∀ f ∈ st.facts, f.domain ≠ none)
    (hne : ∃ f ∈ st.facts, f.project_id = pid ∧ ps ≤ f.scraped_at ∧ f.scraped_at ≤ pe) :
    ∃ resp, get_share_of_voice st pid ps pe = some resp ∧
      (resp.competitors.map (fun i => i.share_percentage)).sum = 100 := by
  simp only [get_share_of_voice, hproj]
  refine ⟨_, rfl, ?_⟩
  dsimp only
  set total := (st.facts.filter (fun f =>
    decide (f.project_id = pid ∧ ps ≤ f.scraped_at ∧ f.scraped_at ≤ pe))).length with htotal
  set rows := st.facts.filter (fun f =>
    decide (f.project_id = pid ∧ ps ≤ f.scraped_at ∧ f.scraped_at ≤ pe ∧
      f.domain ≠ none)) with hrowsdef
  have hrows : rows = st.facts.filter (fun f =>
      decide (f.project_id = pid ∧ ps ≤ f.scraped_at ∧ f.scraped_at ≤ pe)) := by
    rw [hrowsdef]
    apply List.filter_congr
    intro f hf
    have hd := hdom f hf
    simp [hd]
  have hlen : rows.length = total := by rw [hrows]
  have htpos : 0 < total := by
    obtain ⟨f, hf, hpf⟩ := hne
    have hfmem : f ∈ st.facts.filter (fun f =>
        decide (f.project_id = pid ∧ ps ≤ f.scraped_at ∧ f.scraped_at ≤ pe)) :=
      List.mem_filter.mpr ⟨hf, by simpa using hpf⟩
    exact List.length_pos.mpr (List.ne_nil_of_mem hfmem)
  rw [List.map_map]
  simp only [Function.comp, htpos, if_true, reduceIte]
  have hsortsum : ∀ (l : List ((Option Str × Option Str) × Nat × Option ℚ))
      (f : (Option Str × Option Str) × Nat × Option ℚ → ℚ),
      ((sortDescBy (fun t => (t.2.1 : Int)) l).map f).sum = (l.map f).sum :=
    fun l f => ((sortedBy_perm _ l).map f).sum_eq
  rw [hsortsum]
  rw [List.map_map]
  have hmaxQ : (total : ℚ) ⊔ 1 = (total : ℚ) := max_eq_left (by exact_mod_cast htpos)
  simp only [Function.comp_def, hmaxQ]
  have hpart : ((dedupFirst (rows.map (fun f => (f.domain, f.merchant_name)))).map
      (fun k => (rows.filter (fun f => decide ((f.domain, f.merchant_name) = k))).length)).sum
      = rows.length :=
    sum_partition_lengths _ _ _ (dedupFirst_nodup _)
      (fun x hx => mem_dedupFirst_of_mem (List.mem_map_of_mem _ hx))
  have hcast : ∀ (ks : List (Option Str × Option Str)) (cnt : (Option Str × Option Str) → Nat),
      (ks.map (fun k => ((cnt k : ℚ) / (total : ℚ)) * 100)).sum =
      ((ks.map cnt).sum : ℚ) * (100 / (total : ℚ)) := by
    intro ks cnt
    induction ks with
    | nil => simp
    | cons k ks ih =>
      simp only [List.map_cons, List.sum_cons, ih, List.map_cons, Nat.cast_add]
      push_cast
      ring
  rw [hcast]
  rw [hpart, hlen]
  have htne : (total : ℚ) ≠ 0 := Nat.cast_ne_zero.mpr htpos.ne'
  field_simp

/-- Concrete fixture for the C4 witness: three facts over two domains. -/
def c4State : AnalyticsState :=
  { projects := [{ id := 1, name := "p".data, reference_site := none }]
    keywords := []
    competitors := []
    facts :=
      [{ id := 1, project_id := 1, keyword_id := 1, scraped_at := 10, position := some 1,
         domain := some "a.fr".data, merchant_name := some "A".data },
       { id := 2, project_id := 1, keyword_id := 1, scraped_at := 20, position := some 2,
         domain := some "b.fr".data, merchant_name := none },
       { id := 3, project_id := 1, keyword_id := 1, scraped_at := 30, position := some 5,
         domain := some "a.fr".data, merchant_name := some "A".data }] }

theorem c4_share_of_voice_sums_to_100_witness :
    ∃ resp, get_share_of_voice c4State 1 0 100 = some resp ∧
      (resp.competitors.map (fun i => i.share_percentage)).sum = 100 :=
  c4_share_of_voice_sums_to_100 c4State 1 0 100
    { id := 1, name := "p".data, reference_site := none }
    (by decide) (by decide)
    ⟨{ id := 1, project_id := 1, keyword_id := 1, scraped_at := 10, position := some 1,
       domain := some "a.fr".data, merchant_name := some "A".data },
     by decide, by decide, by decide, by decide⟩

/-! ## Claim C7 — canonicalization is not idempotent (counterexample), and a
guarded idempotence theorem

Character-level facts about the ASCII lower-casing first. -/

theorem toNat_ofNat_lt {n : Nat} (h : n < 55296) : (Char.ofNat n).toNat = n := by
  have hv : n.isValidChar := Or.inl h
  rw [Char.ofNat, dif_pos hv]
  rfl

theorem char_le_iff {a b : Char} : a ≤ b ↔ a.toNat ≤ b.toNat := by
  rw [Char.le_def]
  exact Iff.rfl

theorem char_eq_iff_toNat {a b : Char} : a = b ↔ a.toNat = b.toNat :=
  ⟨fun h => h ▸ rfl, fun h => Char.ext (UInt32.toNat.inj h)⟩

theorem asciiLower_toNat_of_upper {c : Char} (h : 'A' ≤ c ∧ c ≤ 'Z') :
    (asciiLower c).toNat = c.toNat + 32 := by
  have h1 : c.toNat ≤ 90 := by
    have := char_le_iff.mp h.2
    simpa using this
  rw [asciiLower, if_pos h]
  exact toNat_ofNat_lt (by omega)

theorem asciiLower_eq_of_not_upper {c : Char} (h : ¬ ('A' ≤ c ∧ c ≤ 'Z')) :
    asciiLower c = c := by
  rw [asciiLower, if_neg h]

theorem upper_toNat_bounds {c : Char} (h : 'A' ≤ c ∧ c ≤ 'Z') :
    65 ≤ c.toNat ∧ c.toNat ≤ 90 := by
  constructor
  · have := char_le_iff.mp h.1
    simpa using this
  · have := char_le_iff.mp h.2
    simpa using this

theorem asciiLower_not_upper (c : Char) : ¬ ('A' ≤ asciiLower c ∧ asciiLower c ≤ 'Z') := by
  by_cases h : 'A' ≤ c ∧ c ≤ 'Z'
  · have h2 := asciiLower_toNat_of_upper h
    have hb := upper_toNat_bounds h
    intro hcon
    have hz := (upper_toNat_bounds hcon).2
    omega
  · rw [asciiLower_eq_of_not_upper h]
    exact h

theorem asciiLower_idem (c : Char) : asciiLower (asciiLower c) = asciiLower c :=
  asciiLower_eq_of_not_upper (asciiLower_not_upper c)

theorem asciiLower_toNat_lt {c : Char} (h : c.toNat < 256) : (asciiLower c).toNat < 256 := by
  by_cases hu : 'A' ≤ c ∧ c ≤ 'Z'
  · have h2 := asciiLower_toNat_of_upper hu
    have hb := upper_toNat_bounds hu
    omega
  · rw [asciiLower_eq_of_not_upper hu]
    exact h

theorem isPySpace_false_of_toNat_gt {c : Char} (h : 32 < c.toNat) : isPySpace c = false := by
  have hne : ∀ b : Char, b.toNat ≤ 32 → ¬ (c = b) := by
    intro b hb he
    rw [char_eq_iff_toNat] at he
    omega
  simp only [isPySpace, decide_eq_false_iff_not]
  push_neg
  exact ⟨hne ' ' (by decide), hne '\t' (by decide), hne '\n' (by decide),
    hne '\r' (by decide), hne '\x0b' (by decide), hne '\x0c' (by decide)⟩

theorem isPySpace_asciiLower (c : Char) : isPySpace (asciiLower c) = isPySpace c := by
  by_cases h : 'A' ≤ c ∧ c ≤ 'Z'
  · have h2 := asciiLower_toNat_of_upper h
    have hb := upper_toNat_bounds h
    rw [isPySpace_false_of_toNat_gt (by omega), isPySpace_false_of_toNat_gt (by omega)]
  · rw [asciiLower_eq_of_not_upper h]

/-! String-level consequences: the preprocessing `lower().strip()` is
idempotent. -/

theorem lowerStr_idem (s : Str) : lowerStr (lowerStr s) = lowerStr s := by
  unfold lowerStr
  rw [List.map_map]
  exact List.map_congr_left (fun c _ => asciiLower_idem c)

theorem lowerStr_pyStrip (s : Str) : lowerStr (pyStrip s) = pyStrip (lowerStr s) := by
  have hpf : (isPySpace ∘ asciiLower) = isPySpace := funext isPySpace_asciiLower
  unfold lowerStr pyStrip
  rw [List.dropWhile_map, hpf, ← List.map_reverse, List.dropWhile_map, hpf, ← List.map_reverse]

theorem dropWhile_dropWhile {α : Type} (p : α → Bool) (l : List α) :
    (l.dropWhile p).dropWhile p = l.dropWhile p := by
  induction l with
  | nil => rfl
  | cons a as ih =>
    by_cases h : p a
    · simp [List.dropWhile_cons, h, ih]
    · simp [List.dropWhile_cons, h]

theorem head_dropWhile_not {α : Type} (p : α → Bool) (l : List α) {a : α}
    (h : (l.dropWhile p).head? = some a) : p a = false := by
  induction l with
  | nil => simp [List.dropWhile] at h
  | cons b bs ih =>
    rw [List.dropWhile_cons] at h
    by_cases hb : p b
    · rw [if_pos hb] at h
      exact ih h
    · rw [if_neg hb] at h
      simp only [List.head?_cons, Option.some.injEq] at h
      subst h
      simpa using hb

theorem dropWhile_eq_self_of_head {α : Type} (p : α → Bool) (l : List α)
    (h : ∀ a, l.head? = some a → p a = false) : l.dropWhile p = l := by
  cases l with
  | nil => rfl
  | cons a as =>
    have hpa : p a = false := h a rfl
    rw [List.dropWhile_cons, if_neg (by simp [hpa])]

theorem head_of_pre {α : Type} {l₁ l₂ : List α} (h : l₁ <+: l₂) {a : α}
    (ha : l₁.head? = some a) : l₂.head? = some a := by
  obtain ⟨t, ht⟩ := h
  cases l₁ with
  | nil => simp at ha
  | cons b bs =>
    simp only [List.head?_cons, Option.some.injEq] at ha
    subst ha
    subst ht
    rfl

theorem pyStrip_idem (s : Str) : pyStrip (pyStrip s) = pyStrip s := by
  unfold pyStrip
  have h1 : (((s.dropWhile isPySpace).reverse.dropWhile isPySpace).reverse).dropWhile isPySpace
      = ((s.dropWhile isPySpace).reverse.dropWhile isPySpace).reverse := by
    apply dropWhile_eq_self_of_head
    intro a ha
    have hpre : ((s.dropWhile isPySpace).reverse.dropWhile isPySpace).reverse
        <+: s.dropWhile isPySpace := by
      have hsuf : (s.dropWhile isPySpace).reverse.dropWhile isPySpace
          <:+ (s.dropWhile isPySpace).reverse := List.dropWhile_suffix _
      have h2 := List.reverse_prefix.mpr hsuf
      simpa using h2
    have hhead := head_of_pre hpre ha
    exact head_dropWhile_not isPySpace s hhead
  rw [h1, List.reverse_reverse, dropWhile_dropWhile]

theorem preprocess_idem (u : Str) : preprocess (preprocess u) = preprocess u := by
  unfold preprocess
  rw [lowerStr_pyStrip, lowerStr_idem, pyStrip_idem]

/-! C7 development: guarded idempotence of normalize_url on plain
`https://host/path` URLs. -/

/-- The eight characters `https://` heading the URLs of the guarded class. -/
def httpsHead : Str := ['h', 't', 't', 'p', 's', ':', '/', '/']

/-- Lower-case host characters: letters, digits, dots, hyphens. -/
def goodHostChar (c : Char) : Bool :=
  ('a' ≤ c ∧ c ≤ 'z') ∨ isAsciiDigit c ∨ c = '.' ∨ c = '-'

/-- Lower-case path characters: letters, digits, `.`, `-`, `_`, `/`. -/
def goodPathChar (c : Char) : Bool :=
  ('a' ≤ c ∧ c ≤ 'z') ∨ isAsciiDigit c ∨ c = '.' ∨ c = '-' ∨ c = '_' ∨ c = '/'

theorem all_mem_of_all {α : Type} {q : α → Bool} {l : List α} (hl : l.all q = true) :
    ∀ c ∈ l, q c = true := List.all_eq_true.mp hl

theorem char_ne_of_toNat_ne {c d : Char} (h : c.toNat ≠ d.toNat) : c ≠ d :=
  fun he => h (char_eq_iff_toNat.mp he)

theorem goodHostChar_toNat {c : Char} (h : goodHostChar c = true) :
    (97 ≤ c.toNat ∧ c.toNat ≤ 122) ∨ (48 ≤ c.toNat ∧ c.toNat ≤ 57) ∨
      c.toNat = 46 ∨ c.toNat = 45 := by
  simp only [goodHostChar, isAsciiDigit, decide_eq_true_eq] at h
  rcases h with ⟨h1, h2⟩ | ⟨h1, h2⟩ | h | h
  · exact Or.inl ⟨by simpa using char_le_iff.mp h1, by simpa using char_le_iff.mp h2⟩
  · exact Or.inr (Or.inl ⟨by simpa using char_le_iff.mp h1, by simpa using char_le_iff.mp h2⟩)
  · exact Or.inr (Or.inr (Or.inl (by simpa using char_eq_iff_toNat.mp h)))
  · exact Or.inr (Or.inr (Or.inr (by simpa using char_eq_iff_toNat.mp h)))

theorem goodPathChar_toNat {c : Char} (h : goodPathChar c = true) :
    (97 ≤ c.toNat ∧ c.toNat ≤ 122) ∨ (48 ≤ c.toNat ∧ c.toNat ≤ 57) ∨
      c.toNat = 46 ∨ c.toNat = 45 ∨ c.toNat = 95 ∨ c.toNat = 47 := by
  simp only [goodPathChar, isAsciiDigit, decide_eq_true_eq] at h
  rcases h with ⟨h1, h2⟩ | ⟨h1, h2⟩ | h | h | h | h
  · exact Or.inl ⟨by simpa using char_le_iff.mp h1, by simpa using char_le_iff.mp h2⟩
  · exact Or.inr (Or.inl ⟨by simpa using char_le_iff.mp h1, by simpa using char_le_iff.mp h2⟩)
  · exact Or.inr (Or.inr (Or.inl (by simpa using char_eq_iff_toNat.mp h)))
  · exact Or.inr (Or.inr (Or.inr (Or.inl (by simpa using char_eq_iff_toNat.mp h))))
  · exact Or.inr (Or.inr (Or.inr (Or.inr (Or.inl (by simpa using char_eq_iff_toNat.mp h)))))
  · exact Or.inr (Or.inr (Or.inr (Or.inr (Or.inr (by simpa using char_eq_iff_toNat.mp h)))))

theorem hostChar_facts {c : Char} (hc : goodHostChar c = true) :
    asciiLower c = c ∧ isPySpace c = false ∧
    c ≠ '\t' ∧ c ≠ '\r' ∧ c ≠ '\n' ∧ c ≠ ':' ∧
    isNetlocEnd c = false ∧ c ≠ '[' ∧ c ≠ ']' := by
  have ht := goodHostChar_toNat hc
  refine ⟨?_, ?_, ?_, ?_, ?_, ?_, ?_, ?_, ?_⟩
  · exact asciiLower_eq_of_not_upper (fun hu => by have := upper_toNat_bounds hu; omega)
  · exact isPySpace_false_of_toNat_gt (by omega)
  · exact char_ne_of_toNat_ne (by rw [show Char.toNat '\t' = 9 from rfl]; omega)
  · exact char_ne_of_toNat_ne (by rw [show Char.toNat '\r' = 13 from rfl]; omega)
  · exact char_ne_of_toNat_ne (by rw [show Char.toNat '\n' = 10 from rfl]; omega)
  · exact char_ne_of_toNat_ne (by rw [show Char.toNat ':' = 58 from rfl]; omega)
  · simp only [isNetlocEnd, decide_eq_false_iff_not]
    push_neg
    refine ⟨?_, ?_, ?_⟩
    · exact char_ne_of_toNat_ne (by rw [show Char.toNat '/' = 47 from rfl]; omega)
    · exact char_ne_of_toNat_ne (by rw [show Char.toNat '?' = 63 from rfl]; omega)
    · exact char_ne_of_toNat_ne (by rw [show Char.toNat '#' = 35 from rfl]; omega)
  · exact char_ne_of_toNat_ne (by rw [show Char.toNat '[' = 91 from rfl]; omega)
  · exact char_ne_of_toNat_ne (by rw [show Char.toNat ']' = 93 from rfl]; omega)

theorem pathChar_facts {c : Char} (hc : goodPathChar c = true) :
    asciiLower c = c ∧ isPySpace c = false ∧
    c ≠ '\t' ∧ c ≠ '\r' ∧ c ≠ '\n' ∧ c ≠ '#' ∧ c ≠ '?' ∧ c ≠ ';' := by
  have ht := goodPathChar_toNat hc
  refine ⟨?_, ?_, ?_, ?_, ?_, ?_, ?_, ?_⟩
  · exact asciiLower_eq_of_not_upper (fun hu => by have := upper_toNat_bounds hu; omega)
  · exact isPySpace_false_of_toNat_gt (by omega)
  · exact char_ne_of_toNat_ne (by rw [show Char.toNat '\t' = 9 from rfl]; omega)
  · exact char_ne_of_toNat_ne (by rw [show Char.toNat '\r' = 13 from rfl]; omega)
  · exact char_ne_of_toNat_ne (by rw [show Char.toNat '\n' = 10 from rfl]; omega)
  · exact char_ne_of_toNat_ne (by rw [show Char.toNat '#' = 35 from rfl]; omega)
  · exact char_ne_of_toNat_ne (by rw [show Char.toNat '?' = 63 from rfl]; omega)
  · exact char_ne_of_toNat_ne (by rw [show Char.toNat ';' = 59 from rfl]; omega)

theorem splitFirst_append_sep (sep : Char) (l r : Str) (hl : ∀ c ∈ l, c ≠ sep) :
    splitFirst sep (l ++ sep :: r) = (l, some r) := by
  induction l with
  | nil => simp [splitFirst]
  | cons a as ih =>
    have ha : a ≠ sep := hl a (List.mem_cons_self a as)
    simp only [List.cons_append, splitFirst, if_neg ha, List.append_eq]
    rw [ih (fun c hc => hl c (List.mem_cons_of_mem a hc))]

theorem splitFirst_not_mem (sep : Char) (l : Str) (hl : ∀ c ∈ l, c ≠ sep) :
    splitFirst sep l = (l, none) := by
  induction l with
  | nil => rfl
  | cons a as ih =>
    have ha : a ≠ sep := hl a (List.mem_cons_self a as)
    simp only [splitFirst, if_neg ha]
    rw [ih (fun c hc => hl c (List.mem_cons_of_mem a hc))]

theorem takeWhile_append_stop {α : Type} (q : α → Bool) (l r : List α) (a : α)
    (hl : ∀ c ∈ l, q c = true) (ha : q a = false) :
    (l ++ a :: r).takeWhile q = l := by
  induction l with
  | nil => simp [List.takeWhile_cons, ha]
  | cons b bs ih =>
    have hb : q b = true := hl b (List.mem_cons_self b bs)
    simp only [List.cons_append, List.takeWhile_cons, hb, if_true]
    rw [ih (fun c hc => hl c (List.mem_cons_of_mem b hc))]

theorem dropWhile_append_stop {α : Type} (q : α → Bool) (l r : List α) (a : α)
    (hl : ∀ c ∈ l, q c = true) (ha : q a = false) :
    (l ++ a :: r).dropWhile q = a :: r := by
  induction l with
  | nil => simp [List.dropWhile_cons, ha]
  | cons b bs ih =>
    have hb : q b = true := hl b (List.mem_cons_self b bs)
    simp only [List.cons_append, List.dropWhile_cons, hb, if_true]
    exact ih (fun c hc => hl c (List.mem_cons_of_mem b hc))

theorem contains_eq_false_of_ne {l : Str} {a : Char} (h : ∀ c ∈ l, c ≠ a) :
    l.contains a = false := by
  induction l with
  | nil => rfl
  | cons b bs ih =>
    simp only [List.contains_cons, Bool.or_eq_false_iff]
    constructor
    · simpa using (h b (List.mem_cons_self b bs)).symm
    · exact ih (fun c hc => h c (List.mem_cons_of_mem b hc))

theorem stripUnsafe_eq_self {s : Str} (h : ∀ c ∈ s, c ≠ '\t' ∧ c ≠ '\r' ∧ c ≠ '\n') :
    stripUnsafe s = s := by
  unfold stripUnsafe
  apply List.filter_eq_self.mpr
  intro c hc
  have hcc := h c hc
  simp [hcc.1, hcc.2.1, hcc.2.2]

theorem mem_of_some_head {α : Type} {l : List α} {a : α} (h : l.head? = some a) : a ∈ l := by
  cases l with
  | nil => simp at h
  | cons b bs =>
    simp only [List.head?_cons, Option.some.injEq] at h
    subst h
    exact List.mem_cons_self _ _

theorem pyStrip_eq_self {s : Str} (h : ∀ c ∈ s, isPySpace c = false) : pyStrip s = s := by
  unfold pyStrip
  rw [dropWhile_eq_self_of_head _ _ (fun a ha => h a (mem_of_some_head ha))]
  rw [dropWhile_eq_self_of_head _ _ (fun a ha => h a (by
    have := mem_of_some_head ha
    simpa using this))]
  rw [List.reverse_reverse]

theorem lowerStr_eq_self {s : Str} (h : ∀ c ∈ s, asciiLower c = c) : lowerStr s = s := by
  unfold lowerStr
  rw [show s.map asciiLower = s.map id from List.map_congr_left h, List.map_id]

theorem mem_hostpath_cases {h p' : Str} {c : Char}
    (hc : c ∈ httpsHead ++ h ++ ('/' :: p')) :
    c ∈ httpsHead ∨ c ∈ h ∨ c = '/' ∨ c ∈ p' := by
  rcases List.mem_append.mp hc with h1 | h2
  · rcases List.mem_append.mp h1 with h3 | h4
    · exact Or.inl h3
    · exact Or.inr (Or.inl h4)
  · rcases List.mem_cons.mp h2 with rfl | h5
    · exact Or.inr (Or.inr (Or.inl rfl))
    · exact Or.inr (Or.inr (Or.inr h5))

theorem hostpath_char_basic {h p' : Str} (hh : h.all goodHostChar = true)
    (hp : p'.all goodPathChar = true) {c : Char}
    (hc : c ∈ httpsHead ++ h ++ ('/' :: p')) :
    asciiLower c = c ∧ isPySpace c = false ∧ c ≠ '\t' ∧ c ≠ '\r' ∧ c ≠ '\n' := by
  rcases mem_hostpath_cases hc with h1 | h2 | rfl | h3
  · simp only [httpsHead, List.mem_cons, List.not_mem_nil, or_false] at h1
    rcases h1 with rfl | rfl | rfl | rfl | rfl | rfl | rfl | rfl <;> decide
  · obtain ⟨a1, a2, a3, a4, a5, -⟩ := hostChar_facts (all_mem_of_all hh c h2)
    exact ⟨a1, a2, a3, a4, a5⟩
  · decide
  · obtain ⟨a1, a2, a3, a4, a5, -⟩ := pathChar_facts (all_mem_of_all hp c h3)
    exact ⟨a1, a2, a3, a4, a5⟩

theorem preprocess_hostpath (h p' : Str) (hh : h.all goodHostChar = true)
    (hp : p'.all goodPathChar = true) :
    preprocess (httpsHead ++ h ++ ('/' :: p')) = httpsHead ++ h ++ ('/' :: p') := by
  unfold preprocess
  rw [lowerStr_eq_self (fun c hc => (hostpath_char_basic hh hp hc).1),
    pyStrip_eq_self (fun c hc => (hostpath_char_basic hh hp hc).2.1)]

theorem splitScheme_hostpath (h p' : Str) :
    splitScheme (httpsHead ++ h ++ ('/' :: p'))
      = (['h', 't', 't', 'p', 's'], '/' :: '/' :: (h ++ ('/' :: p'))) := by
  have hre : httpsHead ++ h ++ ('/' :: p')
      = ['h', 't', 't', 'p', 's'] ++ ':' :: ('/' :: '/' :: (h ++ ('/' :: p'))) := by
    simp [httpsHead]
  unfold splitScheme
  rw [hre, splitFirst_append_sep ':' _ _ (by decide)]
  dsimp only
  rw [if_pos (by decide)]
  rw [show lowerStr ['h', 't', 't', 'p', 's'] = ['h', 't', 't', 'p', 's'] from by decide]

theorem urlparseE_hostpath (h p' : Str)
    (hh : h.all goodHostChar = true) (hp : p'.all goodPathChar = true) :
    urlparseE (httpsHead ++ h ++ ('/' :: p')) =
      .ok ⟨['h', 't', 't', 'p', 's'], h, '/' :: p', [], [], []⟩ := by
  have hhm := all_mem_of_all hh
  have hpm := all_mem_of_all hp
  have hstrip : stripUnsafe (httpsHead ++ h ++ ('/' :: p'))
      = httpsHead ++ h ++ ('/' :: p') :=
    stripUnsafe_eq_self (fun c hc => (hostpath_char_basic hh hp hc).2.2)
  have htake : (h ++ ('/' :: p')).takeWhile (fun c => ¬ isNetlocEnd c) = h :=
    takeWhile_append_stop _ h p' '/'
      (fun c hc => by
        have h7 := (hostChar_facts (hhm c hc)).2.2.2.2.2.2.1
        simp [h7])
      (by decide)
  have hdrop : (h ++ ('/' :: p')).dropWhile (fun c => ¬ isNetlocEnd c) = '/' :: p' :=
    dropWhile_append_stop _ h p' '/'
      (fun c hc => by
        have h7 := (hostChar_facts (hhm c hc)).2.2.2.2.2.2.1
        simp [h7])
      (by decide)
  have hlb : h.contains '[' = false :=
    contains_eq_false_of_ne (fun c hc => (hostChar_facts (hhm c hc)).2.2.2.2.2.2.2.1)
  have hrb : h.contains ']' = false :=
    contains_eq_false_of_ne (fun c hc => (hostChar_facts (hhm c hc)).2.2.2.2.2.2.2.2)
  have hpsharp : ∀ c ∈ '/' :: p', c ≠ '#' := by
    intro c hc
    rcases List.mem_cons.mp hc with rfl | hc2
    · decide
    · exact (pathChar_facts (hpm c hc2)).2.2.2.2.2.1
  have hpq : ∀ c ∈ '/' :: p', c ≠ '?' := by
    intro c hc
    rcases List.mem_cons.mp hc with rfl | hc2
    · decide
    · exact (pathChar_facts (hpm c hc2)).2.2.2.2.2.2.1
  have hpsemi : ('/' :: p').contains ';' = false := by
    apply contains_eq_false_of_ne
    intro c hc
    rcases List.mem_cons.mp hc with rfl | hc2
    · decide
    · exact (pathChar_facts (hpm c hc2)).2.2.2.2.2.2.2
  have hcond : List.take 2 ('/' :: '/' :: (h ++ ('/' :: p'))) = ['/', '/'] := rfl
  have hdrop2 : List.drop 2 ('/' :: '/' :: (h ++ ('/' :: p'))) = h ++ ('/' :: p') := rfl
  have hsharp := splitFirst_not_mem '#' ('/' :: p') hpsharp
  have hqm := splitFirst_not_mem '?' ('/' :: p') hpq
  have hsp : splitParams ('/' :: p') = ('/' :: p', []) := by
    unfold splitParams
    rw [hpsemi]
    simp
  have hlbm : '[' ∉ h := fun hm => absurd rfl (hostChar_facts (hhm '[' hm)).2.2.2.2.2.2.2.1
  have hrbm : ']' ∉ h := fun hm => absurd rfl (hostChar_facts (hhm ']' hm)).2.2.2.2.2.2.2.2
  simp only [urlparseE, hstrip, splitScheme_hostpath h p', hcond, hdrop2, htake, hdrop,
    hlb, hrb, hsharp, hqm, hsp]
  simp [hsharp, hqm, hsp, hlbm, hrbm]

theorem urlunparse_https (n pp : Str) (hn : n ≠ []) (hpp : pp.headD ' ' = '/') :
    urlunparse ['h', 't', 't', 'p', 's'] n pp [] [] [] = httpsHead ++ n ++ pp := by
  have hemp : ((([] : Str) ≠ []) : Prop) = False := by simp
  unfold urlunparse
  dsimp only
  simp only [hemp, if_false]
  rw [if_pos (Or.inl hn)]
  rw [if_neg (show ¬ (pp ≠ [] ∧ pp.headD ' ' ≠ '/') from fun hcon => hcon.2 hpp)]
  simp [httpsHead]

theorem all_of_pre {α : Type} {l₁ l₂ : List α} {q : α → Bool}
    (h : l₁ <+: l₂) (ha : l₂.all q = true) : l₁.all q = true :=
  List.all_eq_true.mpr (fun c hc => List.all_eq_true.mp ha c (h.sublist.subset hc))

theorem normPath_pre (p : Str) :
    (p.reverse.dropWhile (fun c => c = '/')).reverse <+: p := by
  have hsuf : p.reverse.dropWhile (fun c => c = '/') <:+ p.reverse :=
    List.dropWhile_suffix _
  have h2 := List.reverse_prefix.mpr hsuf
  simpa using h2

theorem normPath_cons_slash (p' : Str) : ∃ q, normPath ('/' :: p') = '/' :: q := by
  unfold normPath
  dsimp only
  by_cases h0 : (('/' :: p').reverse.dropWhile (fun c => c = '/')).reverse = ([] : Str)
  · rw [if_pos h0]
    exact ⟨[], rfl⟩
  · rw [if_neg h0]
    obtain ⟨a, t, hat⟩ := List.exists_cons_of_ne_nil h0
    have hpre := normPath_pre ('/' :: p')
    rw [hat] at hpre ⊢
    have hhead : ('/' :: p').head? = some a := head_of_pre hpre rfl
    simp only [List.head?_cons, Option.some.injEq] at hhead
    exact ⟨t, by rw [hhead]⟩

theorem normPath_idem (p : Str) : normPath (normPath p) = normPath p := by
  unfold normPath
  dsimp only
  by_cases h0 : (p.reverse.dropWhile (fun c => c = '/')).reverse = ([] : Str)
  · rw [if_pos h0]
    decide
  · rw [if_neg h0]
    have hDD : ((p.reverse.dropWhile (fun c => c = '/')).reverse.reverse.dropWhile
        (fun c => c = '/')).reverse = (p.reverse.dropWhile (fun c => c = '/')).reverse := by
      rw [List.reverse_reverse, dropWhile_dropWhile]
    rw [hDD, if_neg h0]

theorem normPath_all (p : Str) (hp : p.all goodPathChar = true) :
    (normPath p).all goodPathChar = true := by
  unfold normPath
  dsimp only
  by_cases h0 : (p.reverse.dropWhile (fun c => c = '/')).reverse = ([] : Str)
  · rw [if_pos h0]
    decide
  · rw [if_neg h0]
    exact all_of_pre (normPath_pre p) hp

theorem stripWww_all (h : Str) (hh : h.all goodHostChar = true) :
    (stripWww h).all goodHostChar = true := by
  unfold stripWww
  split
  · exact List.all_eq_true.mpr
      (fun c hc => List.all_eq_true.mp hh c (List.drop_subset _ _ hc))
  · exact hh

theorem stripWww_eq_self (h : Str) (hsw : h.take 4 ≠ ('w' :: 'w' :: 'w' :: ['.'])) :
    stripWww h = h := by
  unfold stripWww
  rw [if_neg hsw]

theorem normalize_url_hostpath (h p' : Str)
    (hh : h.all goodHostChar = true) (hp : p'.all goodPathChar = true)
    (hsn : stripWww h ≠ []) :
    normalize_url (httpsHead ++ h ++ ('/' :: p')) =
      httpsHead ++ stripWww h ++ normPath ('/' :: p') := by
  obtain ⟨q, hq⟩ := normPath_cons_slash p'
  unfold normalize_url
  rw [if_neg (show ¬ (httpsHead ++ h ++ ('/' :: p') = []) from by simp [httpsHead])]
  dsimp only
  rw [preprocess_hostpath h p' hh hp, urlparseE_hostpath h p' hh hp]
  dsimp only
  rw [if_neg (show ¬ ((['h', 't', 't', 'p', 's'] : Str) = []) from by decide)]
  rw [show buildQueryString (cleanedQueryParams []) = [] from by decide]
  rw [urlunparse_https (stripWww h) (normPath ('/' :: p')) hsn (by rw [hq]; rfl)]

/-- Claim C7 (amended): `normalize_url` is idempotent on plain
`https://host/path` URLs: a lower-case host made of letters, digits, dots
and hyphens whose `www.`-stripped form is non-empty and does not again start
with `www.`, and a path of lower-case letters, digits, `.`, `-`, `_` and
slashes (no query, fragment, parameters or percent-escapes). -/
theorem c7_normalize_idempotent_guarded (h p' : Str)
    (hh : h.all goodHostChar = true) (hp : p'.all goodPathChar = true)
    (hsn : stripWww h ≠ [])
    (hsw : (stripWww h).take 4 ≠ ('w' :: 'w' :: 'w' :: ['.'])) :
    normalize_url (normalize_url (httpsHead ++ h ++ ('/' :: p'))) =
      normalize_url (httpsHead ++ h ++ ('/' :: p')) := by
  obtain ⟨q, hq⟩ := normPath_cons_slash p'
  have hh2 : (stripWww h).all goodHostChar = true := stripWww_all h hh
  have hq2 : ('/' :: q).all goodPathChar = true := by
    rw [← hq]
    exact normPath_all ('/' :: p') (by rw [List.all_cons, hp]; decide)
  have hpq2 : q.all goodPathChar = true := by
    rw [List.all_cons, Bool.and_eq_true] at hq2
    exact hq2.2
  have hsn2 : stripWww (stripWww h) ≠ [] := by
    rw [stripWww_eq_self _ hsw]
    exact hsn
  rw [normalize_url_hostpath h p' hh hp hsn, hq,
    normalize_url_hostpath (stripWww h) q hh2 hpq2 hsn2,
    stripWww_eq_self _ hsw, ← hq, normPath_idem, hq]

/-- Claim C7 (counterexample): URL canonicalization is not idempotent.  Four
input families make a second application of `normalize_url` differ from the
first: a `www.` strip applies once per pass, so a `www.www.` host loses one
prefix per application; the path re-assembly can leave a `;parameters`
segment that the next parse splits off; a `%XX` escape decoding to an
upper-case letter is re-emitted literally and only the next pass lower-cases
it; and dropping the query can expose a trailing space in the path that only
the next pass strips. -/
theorem c7_idempotence_counterexample :
    (normalize_url (normalize_url "https://www.www.example.com/".data) ≠
      normalize_url "https://www.www.example.com/".data) ∧
    (normalize_url (normalize_url "https://a.com/x;p/".data) ≠
      normalize_url "https://a.com/x;p/".data) ∧
    (normalize_url (normalize_url "https://a.com/?%41=1".data) ≠
      normalize_url "https://a.com/?%41=1".data) ∧
    (normalize_url (normalize_url "https://a.com/x ?utm_source=1".data) ≠
      normalize_url "https://a.com/x ?utm_source=1".data) := by
  refine ⟨by decide, by decide, by decide, by decide⟩

/-- Witness for the amended claim C7 at `https://www.example.fr/product//`. -/
theorem c7_normalize_idempotent_guarded_witness :
    normalize_url (normalize_url
      (httpsHead ++ ['w', 'w', 'w', '.', 'e', 'x', 'a', 'm', 'p', 'l', 'e', '.', 'f', 'r']
        ++ ('/' :: ['p', 'r', 'o', 'd', 'u', 'c', 't', '/', '/']))) =
    normalize_url
      (httpsHead ++ ['w', 'w', 'w', '.', 'e', 'x', 'a', 'm', 'p', 'l', 'e', '.', 'f', 'r']
        ++ ('/' :: ['p', 'r', 'o', 'd', 'u', 'c', 't', '/', '/'])) :=
  c7_normalize_idempotent_guarded ['w', 'w', 'w', '.', 'e', 'x', 'a', 'm', 'p', 'l', 'e', '.', 'f', 'r']
    ['p', 'r', 'o', 'd', 'u', 'c', 't', '/', '/']
    (by decide) (by decide) (by decide) (by decide)


end Shopping
